import Mathlib

/-!
# Verification of `wasm/main.go`

A shallow embedding of the two exported functions of the module, `add` and
`changeImageBrightness`, together with the helper `adjustBrightness`.

## Numbers

* Go `int` on `GOARCH=wasm` is a signed 64-bit integer; arithmetic on it wraps.
  It is embedded as `Int` with an explicit wrap (`wrapInt64`).
* Go `float64` is IEEE-754 binary64.  The finite values are embedded as pairs
  `num * 2 ^ exp` (`F64`); every arithmetic operation computes the exact result
  and rounds it once to the nearest value with a 53-bit significand, ties to
  even, with the subnormal quantum `2 ^ (-1074)`.  The operations are rounded
  one by one (the wasm target has no fused multiply-add).  Infinities and NaN
  are outside the model: the only divisor in the program is the constant
  `100.0` and no value in it comes near `2 ^ 1024`.

## Strings

A Go string is embedded as a `String`.  The program only splits at the ASCII
comma and tests ASCII prefixes, which gives the same result on the characters
as on the UTF-8 bytes.

## Host and libraries

The values received from JavaScript are seen through the getters the module
calls on them.  The calls into the host (`js.Global().Call`), into `fmt` and
into the `base64`, `png` and `jpeg` packages are recorded, in program order, in
the trace of an outcome.  A host call panics when the global object has no
function of the name called (`Host`), and then the exported function panics
with it.  The codecs are parameters (`Codecs`).  Images are seen through `Bounds` and `At`, colours
through `RGBA()`, and the pixel buffer of an `*image.RGBA` through what `RGBAAt`
reads.
-/

namespace Wasm

/-! ## binary64 arithmetic -/

/-- Number of binary digits of `n`, computed with `fuel` halvings. -/
def bitLenAux : Nat → Nat → Nat
  | 0, _ => 0
  | fuel + 1, n => if n = 0 then 0 else bitLenAux fuel (n / 2) + 1

/-- Number of binary digits of `n`: `2 ^ (bitLen n - 1) ≤ n < 2 ^ bitLen n` for `0 < n`. -/
def bitLen (n : Nat) : Nat := bitLenAux n n

/-- A finite binary64 value, `num * 2 ^ exp`. -/
structure F64 where
  num : Int
  exp : Int
  deriving Repr

namespace F64

/-- Round half to even of the fraction `n / d`. -/
def roundHalfEven (n d : Nat) : Nat :=
  let q := n / d
  let r := n % d
  if 2 * r < d then q
  else if d < 2 * r then q + 1
  else if q % 2 = 0 then q else q + 1

/-- Test `2 ^ k ≤ a / d`, for `0 < d`. -/
def pow2Le (k : Int) (a d : Nat) : Bool :=
  if 0 ≤ k then decide (d * 2 ^ k.toNat ≤ a) else decide (d ≤ a * 2 ^ (-k).toNat)

/-- Floor of the binary logarithm of the fraction `a / d`, for `0 < a`, `0 < d`:
the difference of the bit lengths, or one less. -/
def floorLog2 (a d : Nat) : Int :=
  let k : Int := (bitLen a : Int) - (bitLen d : Int)
  if pow2Le k a d then k else k - 1

/-- Exponent of the last place of the binary64 values around `a / d`: 52 below the
leading bit, and never below the subnormal exponent `-1074`. -/
def quantum (a d : Nat) : Int := max (floorLog2 a d - 52) (-1074)

/-- The fraction `a / d` in units of `2 ^ e`, rounded half to even. -/
def scaledRound (a d : Nat) (e : Int) : Nat :=
  if e < 0 then roundHalfEven (a * 2 ^ (-e).toNat) d
  else roundHalfEven a (d * 2 ^ e.toNat)

/-- The binary64 value nearest to the rational `n / d` (`0 < d`), ties to even. -/
def roundRatio (n : Int) (d : Nat) : F64 :=
  if n = 0 then ⟨0, 0⟩
  else
    let e : Int := quantum n.natAbs d
    let m : Nat := scaledRound n.natAbs d e
    ⟨if n < 0 then -(m : Int) else (m : Int), e⟩

/-- The binary64 value nearest to `m * 2 ^ e`. -/
def roundDyadic (m e : Int) : F64 :=
  if 0 ≤ e then roundRatio (m * 2 ^ e.toNat) 1 else roundRatio m (2 ^ (-e).toNat)

/-- Conversion `float64(i)` of an integer. -/
def ofInt (i : Int) : F64 := roundRatio i 1

/-- Sum `x + y`, rounded. -/
def add (x y : F64) : F64 :=
  let e := min x.exp y.exp
  roundDyadic (x.num * 2 ^ (x.exp - e).toNat + y.num * 2 ^ (y.exp - e).toNat) e

/-- Product `x * y`, rounded. -/
def mul (x y : F64) : F64 := roundDyadic (x.num * y.num) (x.exp + y.exp)

/-- Quotient `x / y` by a nonzero `y`, rounded. -/
def div (x y : F64) (_ : y.num ≠ 0) : F64 :=
  let e := min x.exp y.exp
  let xn := x.num * 2 ^ (x.exp - e).toNat
  let yn := y.num * 2 ^ (y.exp - e).toNat
  roundRatio (if yn < 0 then -xn else xn) yn.natAbs

/-- Comparison `x < y`. -/
def lt (x y : F64) : Bool :=
  let e := min x.exp y.exp
  decide (x.num * 2 ^ (x.exp - e).toNat < y.num * 2 ^ (y.exp - e).toNat)

/-- Integer part of `x`, the fraction discarded (truncation towards zero). -/
def trunc (x : F64) : Int :=
  if 0 ≤ x.exp then x.num * 2 ^ x.exp.toNat else Int.tdiv x.num (2 ^ (-x.exp).toNat)

/-- Conversion `uint8(x)`. -/
def toUint8 (x : F64) : Nat := (x.trunc % 256).toNat

/-- The rational number a binary64 value stands for. -/
def toRat (x : F64) : ℚ := (x.num : ℚ) * (2 : ℚ) ^ x.exp

end F64

/-! ## `adjustBrightness` -/

/-- The constant `100.0`. -/
def c100 : F64 := ⟨100, 0⟩

/-- The constant `255.0`. -/
def c255 : F64 := ⟨255, 0⟩

/-- The constant `0`, as a `float64`. -/
def c0 : F64 := ⟨0, 0⟩

/-- The adjustment `(float64(brightness) / 100.0) * 255.0`. -/
def adjustment (brightness : Int) : F64 :=
  F64.mul (F64.div (F64.ofInt brightness) c100 (by decide)) c255

/-- Embedding of `adjustBrightness(c uint8, brightness int) uint8`: the channel as a
`float64`, plus the adjustment, clamped to `[0, 255]` and converted back. -/
def adjustBrightness (c : Nat) (brightness : Int) : Nat :=
  let fc := F64.add (F64.ofInt (c : Int)) (adjustment brightness)
  if F64.lt fc c0 then 0
  else if F64.lt c255 fc then 255
  else F64.toUint8 fc

/-- The exact value `c + (b / 100) * 255`, clamped to `[0, 255]` and truncated,
computed over the integers (`100 * c + 255 * b` is a hundred times the exact value). -/
def adjustExact (c : Nat) (b : Int) : Nat :=
  let v : Int := 100 * (c : Int) + 255 * b
  if v < 0 then 0 else if 25500 < v then 255 else (v / 100).toNat

/-! ## Go `int`, host values, effects -/

/-- Wrap an integer into the range of Go `int` on wasm, `[-2 ^ 63, 2 ^ 63)`. -/
def wrapInt64 (n : Int) : Int := (n + 2 ^ 63) % 2 ^ 64 - 2 ^ 63

/-- The conversion `int(f)` of an integer-valued `float64` on wasm: a value out of
the range of `int` is replaced by the nearest end of the range. -/
def saturateInt64 (n : Int) : Int := max (-2 ^ 63) (min n (2 ^ 63 - 1))

/-- A `js.Value`, seen through the two getters the module calls on it:
`String` is the result of `v.String()`, and `Int` the result of `v.Int()`, which
is `none` when the value is not a number (the getter panics). -/
structure JSValue where
  String : String
  Int : Option Int

/-- The host, seen through the one thing the module asks of it: whether
`js.Global().Call(m, args...)` returns.  The call panics when the global object
has no function property named `m`. -/
structure Host where
  callReturns : String → List String → Bool

/-- The calls into the host and the libraries, in program order.  `call m args` is
`js.Global().Call(m, args...)`, `println` is `fmt.Println` of a text and an
integer. -/
inductive Event where
  | call (method : String) (args : List String)
  | println (text : String) (n : Int)
  | base64Decode (payload : String)
  | pngDecode (data : List Nat)
  | jpegDecode (data : List Nat)
  | pngEncode
  | jpegEncode (quality : Nat)
  | base64Encode (data : List Nat)
  deriving DecidableEq, Repr

/-- What a call of an exported function does: `value` is what it returns, `none`
when it panics, and `trace` holds the events up to there. -/
structure Outcome (α : Type) where
  value : Option α
  trace : List Event
  deriving DecidableEq

/-! ## `add` -/

/-- The loop `for _, num := range args { sum += num.Int() }`; `none` when a getter panics. -/
def addLoop (sum : Int) : List JSValue → Option Int
  | [] => some sum
  | num :: rest =>
    match num.Int with
    | none => none
    | some n => addLoop (wrapInt64 (sum + n)) rest

/-- Embedding of `add(this js.Value, args []js.Value) interface{}`. -/
def add (args : List JSValue) : Outcome Int :=
  match addLoop 0 args with
  | none => ⟨none, []⟩
  | some sum => ⟨some sum, [Event.println "Sum is:" sum]⟩

/-! ## Strings -/

/-- Split a character sequence at every occurrence of `sep`. -/
def splitChars (sep : Char) : List Char → List (List Char)
  | [] => [[]]
  | c :: cs =>
    if c = sep then [] :: splitChars sep cs
    else
      match splitChars sep cs with
      | [] => [[c]]
      | p :: ps => (c :: p) :: ps

/-- The call `strings.Split(s, sep)` for a one-character separator. -/
def Split (s : String) (sep : Char) : List String :=
  (splitChars sep s.data).map String.mk

/-- The call `strings.HasPrefix(s, pre)`. -/
def HasPrefix (s pre : String) : Bool := pre.data.isPrefixOf s.data

/-! ## Images -/

/-- An `image.Point`. -/
structure Point where
  X : Int
  Y : Int
  deriving DecidableEq, Repr

/-- An `image.Rectangle`. -/
structure Rectangle where
  Min : Point
  Max : Point
  deriving DecidableEq, Repr

/-- The test `p.In(r)`. -/
def Point.In (p : Point) (r : Rectangle) : Bool :=
  decide (r.Min.X ≤ p.X) && decide (p.X < r.Max.X) &&
  decide (r.Min.Y ≤ p.Y) && decide (p.Y < r.Max.Y)

/-- A `color.Color`, given by what its `RGBA()` method returns (four `uint32`). -/
structure Color where
  r : Nat
  g : Nat
  b : Nat
  a : Nat
  deriving DecidableEq, Repr

/-- A `color.RGBA`: four `uint8` channels. -/
structure RGBA where
  R : Nat
  G : Nat
  B : Nat
  A : Nat
  deriving DecidableEq, Repr

/-- The conversion `color.RGBAModel.Convert(c).(color.RGBA)`: each channel is
`uint8(v >> 8)`. -/
def RGBAModel_Convert (c : Color) : RGBA :=
  ⟨c.r / 256 % 256, c.g / 256 % 256, c.b / 256 % 256, c.a / 256 % 256⟩

/-- An `image.Image`: its bounds and its `At` method. -/
structure Image where
  Bounds : Rectangle
  At : Int → Int → Color

/-- An `*image.RGBA`.  The pixel buffer is kept as the function that `RGBAAt` reads. -/
structure RGBAImage where
  Rect : Rectangle
  Pix : Int → Int → RGBA

/-- The call `image.NewRGBA(r)`: every pixel zero. -/
def NewRGBA (r : Rectangle) : RGBAImage := ⟨r, fun _ _ => ⟨0, 0, 0, 0⟩⟩

/-- The call `p.Set(x, y, c)` with a `color.RGBA`: outside `p.Rect` it does nothing. -/
def RGBAImage.Set (p : RGBAImage) (x y : Int) (c : RGBA) : RGBAImage :=
  if Point.In ⟨x, y⟩ p.Rect then
    ⟨p.Rect, fun x1 y1 => if x1 = x ∧ y1 = y then c else p.Pix x1 y1⟩
  else p

/-- The loop `for i := lo; i < hi; i++ { s = body(i, s) }`. -/
def forRange {σ : Type} (lo hi : Int) (body : Int → σ → σ) (s : σ) : σ :=
  (List.range (hi - lo).toNat).foldl (fun (s : σ) (i : Nat) => body (lo + (i : Int)) s) s

/-- The pixel loop of `changeImageBrightness` (from `bounds := img.Bounds()` to the
end of the nested `for`). -/
def pixelLoop (img : Image) (brightness : Int) : RGBAImage :=
  let bounds := img.Bounds
  let rgba := NewRGBA bounds
  forRange bounds.Min.Y bounds.Max.Y (fun y rgba =>
    forRange bounds.Min.X bounds.Max.X (fun x rgba =>
      let originalColor := RGBAModel_Convert (img.At x y)
      let r := adjustBrightness originalColor.R brightness
      let g := adjustBrightness originalColor.G brightness
      let b := adjustBrightness originalColor.B brightness
      rgba.Set x y ⟨r, g, b, originalColor.A⟩) rgba) rgba

/-! ## `changeImageBrightness` -/

/-- The library functions the module calls: `base64.StdEncoding`, `image/png` and
`image/jpeg`.  An error carries the text of `err.Error()`. -/
structure Codecs where
  base64Decode : String → Except String (List Nat)
  base64Encode : List Nat → String
  pngDecode : List Nat → Except String Image
  jpegDecode : List Nat → Except String Image
  pngEncode : RGBAImage → Except String (List Nat)
  jpegEncode : RGBAImage → Nat → Except String (List Nat)

/-- The two statements `js.Global().Call("console.error", args...)` and `return nil`,
after the events `trace`: the call is made, and `nil` is returned when the call
returns; when it panics, so does the function. -/
def reportAndReturnNil (H : Host) (trace : List Event) (args : List String) :
    Outcome (Option String) :=
  ⟨if H.callReturns "console.error" args then some none else none,
    trace ++ [Event.call "console.error" args]⟩

/-- The second half of `changeImageBrightness`, from the base64 decoding of the
payload to the returned data URL, given the validated brightness and the two
parts of the split image string. -/
def processImage (H : Host) (L : Codecs) (brightness : Int) (header payload : String) :
    Outcome (Option String) :=
  match L.base64Decode payload with
  | .error err =>
    reportAndReturnNil H [Event.base64Decode payload]
      ["Failed to decode Base64 image data:", err]
  | .ok data =>
    let t1 := [Event.base64Decode payload]
    let decoded : Option (Except String Image × String × Event) :=
      if HasPrefix header "data:image/png" then
        some (L.pngDecode data, "png", Event.pngDecode data)
      else if HasPrefix header "data:image/jpeg" || HasPrefix header "data:image/jpg" then
        some (L.jpegDecode data, "jpeg", Event.jpegDecode data)
      else none
    match decoded with
    | none =>
      reportAndReturnNil H t1 ["Unsupported image format. Only JPEG and PNG are supported."]
    | some (.error err, _, ev) =>
      reportAndReturnNil H (t1 ++ [ev]) ["Failed to decode image:", err]
    | some (.ok img, format, ev) =>
      let t2 := t1 ++ [ev]
      let rgba := pixelLoop img brightness
      let encodedImage : Option (Except String (List Nat) × Event) :=
        if format = "png" then some (L.pngEncode rgba, Event.pngEncode)
        else if format = "jpeg" then some (L.jpegEncode rgba 95, Event.jpegEncode 95)
        else none
      match encodedImage with
      | none =>
        reportAndReturnNil H t2 ["Unsupported image format during encoding."]
      | some (.error err, ev2) =>
        reportAndReturnNil H (t2 ++ [ev2]) ["Failed to encode image:", err]
      | some (.ok buf, ev2) =>
        let encoded := L.base64Encode buf
        let newDataURL := "data:image/" ++ format ++ ";base64," ++ encoded
        ⟨some (some newDataURL), t2 ++ [ev2, Event.base64Encode buf,
          Event.println "Image brightness changed by:" brightness]⟩

/-- Embedding of `changeImageBrightness(this js.Value, args []js.Value) interface{}`:
the validation of the arguments and the split of the image string, then
`processImage`.  The value of the outcome is `none` when the call panics (in
`args[1].Int()` or in a report), `some none` when it returns `nil`, and
`some (some s)` when it returns the string `s`. -/
def changeImageBrightness (H : Host) (L : Codecs) (args : List JSValue) :
    Outcome (Option String) :=
  match args with
  | a0 :: a1 :: _ =>
    let imageDataURL := a0.String
    match a1.Int with
    | none => ⟨none, []⟩
    | some brightness =>
      if brightness < -100 ∨ brightness > 100 then
        reportAndReturnNil H [] ["Brightness must be between -100 and 100."]
      else
        let parts := Split imageDataURL ','
        if parts.length ≠ 2 then
          reportAndReturnNil H [] ["Invalid Data URL format."]
        else
          processImage H L brightness (parts.getD 0 "") (parts.getD 1 "")
  | _ =>
    reportAndReturnNil H []
      ["changeImageBrightness requires 2 arguments: image (Data URL) and brightness (number)."]

/-! ## Notions used in the statements -/

/-- Number of commas in a string. -/
def commaCount (s : String) : Nat := s.data.count ','

/-- The text before the first comma. -/
def beforeComma (s : String) : String := String.mk (s.data.takeWhile (fun c => c ≠ ','))

/-- The text after the first comma. -/
def afterComma (s : String) : String :=
  String.mk ((s.data.dropWhile (fun c => c ≠ ',')).drop 1)

/-- A `js.Value` holding the integer-valued number `n`: `v.Int()` converts the
`float64` to an `int`. -/
def jsNumber (n : Int) : JSValue := ⟨"<number: " ++ toString n ++ ">", some (saturateInt64 n)⟩

/-- A `js.Value` holding the string `s`. -/
def jsString (s : String) : JSValue := ⟨s, none⟩

/-- A host with the global object of a browser, of an Electron renderer or of Node.
Of its global functions the timer functions are listed; `console` is an object
of it and `error` a method of that object, so it has no function property
named `console.error`. -/
def stockHost : Host :=
  ⟨fun m _ => ["setTimeout", "clearTimeout", "setInterval", "clearInterval"].contains m⟩

/-! ## Codecs for the worked examples

RFC 4648 base64 with padding, and in place of PNG and JPEG a raw format holding
the four channels of a single pixel. -/

/-- The base64 alphabet. -/
def b64Alphabet : List Char :=
  "ABCDEFGHIJKLMNOPQRSTUVWXYZabcdefghijklmnopqrstuvwxyz0123456789+/".data

/-- The digit for a six-bit value. -/
def b64Char (n : Nat) : Char := b64Alphabet.getD n 'A'

/-- The six-bit value of a digit. -/
def b64Value (c : Char) : Option Nat :=
  let i := b64Alphabet.indexOf c
  if i < 64 then some i else none

/-- Base64 encoding, three bytes to four digits. -/
def b64EncodeChars : List Nat → List Char
  | a :: b :: c :: rest =>
    b64Char (a / 4) :: b64Char (a % 4 * 16 + b / 16) :: b64Char (b % 16 * 4 + c / 64) ::
      b64Char (c % 64) :: b64EncodeChars rest
  | [a, b] => [b64Char (a / 4), b64Char (a % 4 * 16 + b / 16), b64Char (b % 16 * 4), '=']
  | [a] => [b64Char (a / 4), b64Char (a % 4 * 16), '=', '=']
  | [] => []

/-- Base64 decoding, four digits to three bytes; `none` on a character outside the
alphabet or on wrong padding. -/
def b64DecodeChars : List Char → Option (List Nat)
  | [] => some []
  | [c1, c2, '=', '='] =>
    match b64Value c1, b64Value c2 with
    | some v1, some v2 => some [v1 * 4 + v2 / 16]
    | _, _ => none
  | [c1, c2, c3, '='] =>
    match b64Value c1, b64Value c2, b64Value c3 with
    | some v1, some v2, some v3 => some [v1 * 4 + v2 / 16, v2 % 16 * 16 + v3 / 4]
    | _, _, _ => none
  | c1 :: c2 :: c3 :: c4 :: rest =>
    match b64Value c1, b64Value c2, b64Value c3, b64Value c4, b64DecodeChars rest with
    | some v1, some v2, some v3, some v4, some bytes =>
      some ((v1 * 4 + v2 / 16) :: (v2 % 16 * 16 + v3 / 4) :: (v3 % 4 * 64 + v4) :: bytes)
    | _, _, _, _, _ => none
  | _ => none

/-- A one-pixel image. -/
def onePixel (c : RGBA) : Image :=
  ⟨⟨⟨0, 0⟩, ⟨1, 1⟩⟩, fun _ _ => ⟨c.R * 257, c.G * 257, c.B * 257, c.A * 257⟩⟩

/-- Decoder of the raw format: exactly four bytes, the channels of the pixel. -/
def rawDecode (data : List Nat) : Except String Image :=
  match data with
  | [r, g, b, a] => .ok (onePixel ⟨r, g, b, a⟩)
  | _ => .error "unexpected EOF"

/-- Encoder of the raw format: the channels of the pixel at the origin. -/
def rawEncode (p : RGBAImage) : Except String (List Nat) :=
  .ok [(p.Pix 0 0).R, (p.Pix 0 0).G, (p.Pix 0 0).B, (p.Pix 0 0).A]

/-- The codecs of the worked examples. -/
def sampleCodecs : Codecs where
  base64Decode s :=
    match b64DecodeChars s.data with
    | some bytes => .ok bytes
    | none => .error "illegal base64 data"
  base64Encode data := String.mk (b64EncodeChars data)
  pngDecode := rawDecode
  jpegDecode := rawDecode
  pngEncode := rawEncode
  jpegEncode p _ := rawEncode p

/-- Check, in integer arithmetic, that the adjustment computed for `b` lies within
`2 ^ (-30)` of the exact `255 * b / 100`, and equals it when that is an integer. -/
def adjustmentOK (b : Int) : Bool :=
  let x := adjustment b
  let p : Int := 2 ^ (-x.exp).toNat
  decide (x.exp ≤ 0) &&
  decide (-(20 * p) ≤ (20 * x.num - 51 * b * p) * 2 ^ 30) &&
  decide ((20 * x.num - 51 * b * p) * 2 ^ 30 ≤ 20 * p) &&
  decide (b % 20 = 0 → 20 * x.num = 51 * b * p)

/-! ## Theorems: binary64 rounding -/

theorem bitLenAux_zero (fuel : Nat) : bitLenAux fuel 0 = 0 := by
  cases fuel <;> simp [bitLenAux]

theorem bitLenAux_lt (fuel n : Nat) (h : n ≤ fuel) : n < 2 ^ bitLenAux fuel n := by
  induction fuel generalizing n with
  | zero =>
    have : n = 0 := by omega
    subst this; simp [bitLenAux]
  | succ f ih =>
    by_cases h0 : n = 0
    · subst h0; simp [bitLenAux]
    · have h1 := ih (n / 2) (by omega)
      simp only [bitLenAux, h0, if_false, pow_succ]
      omega

theorem bitLenAux_le (fuel n : Nat) (h : n ≤ fuel) (hn : 0 < n) :
    2 ^ bitLenAux fuel n ≤ 2 * n := by
  induction fuel generalizing n with
  | zero => omega
  | succ f ih =>
    have h0 : n ≠ 0 := by omega
    simp only [bitLenAux, h0, if_false, pow_succ]
    by_cases h2 : n / 2 = 0
    · rw [h2, bitLenAux_zero]; simp; omega
    · have h1 := ih (n / 2) (by omega) (by omega)
      omega

theorem bitLen_lt (n : Nat) : n < 2 ^ bitLen n := bitLenAux_lt n n le_rfl

theorem bitLen_le (n : Nat) (hn : 0 < n) : 2 ^ bitLen n ≤ 2 * n := bitLenAux_le n n le_rfl hn

theorem zpow_two_nonneg (k : Int) (h : 0 ≤ k) :
    (2 : ℚ) ^ k = ((2 ^ k.toNat : Nat) : ℚ) := by
  conv_lhs => rw [← Int.toNat_of_nonneg h]
  rw [zpow_natCast]; push_cast; rfl

theorem zpow_two_nonpos (k : Int) (h : k ≤ 0) :
    (2 : ℚ) ^ k = 1 / ((2 ^ (-k).toNat : Nat) : ℚ) := by
  have hk : k = -(((-k).toNat : Nat) : Int) := by
    rw [Int.toNat_of_nonneg (by omega)]; ring
  conv_lhs => rw [hk]
  rw [zpow_neg, zpow_natCast]; push_cast; rw [one_div]

theorem zpow_two_pos (k : Int) : (0 : ℚ) < (2 : ℚ) ^ k := by positivity

namespace F64

theorem pow2Le_iff (k : Int) (a d : Nat) (hd : 0 < d) :
    pow2Le k a d = true ↔ (2 : ℚ) ^ k ≤ (a : ℚ) / d := by
  have hd1 : (0 : ℚ) < d := by exact_mod_cast hd
  unfold pow2Le
  split_ifs with hk
  · rw [decide_eq_true_eq, zpow_two_nonneg k hk, le_div_iff₀ hd1]
    norm_cast
    rw [mul_comm]
  · have hp : (0 : ℚ) < ((2 ^ (-k).toNat : Nat) : ℚ) := by positivity
    rw [decide_eq_true_eq, zpow_two_nonpos k (by omega), div_le_div_iff₀ hp hd1]
    norm_cast
    rw [one_mul]

theorem floorLog2_le (a d : Nat) (ha : 0 < a) (hd : 0 < d) :
    (2 : ℚ) ^ floorLog2 a d ≤ (a : ℚ) / d := by
  have hd1 : (0 : ℚ) < d := by exact_mod_cast hd
  unfold floorLog2
  simp only
  split_ifs with h
  · exact (pow2Le_iff _ a d hd).1 h
  · have hA : ((2 : ℚ) ^ bitLen a) ≤ 2 * a := by exact_mod_cast bitLen_le a ha
    have hD : (d : ℚ) ≤ (2 : ℚ) ^ bitLen d := by exact_mod_cast (bitLen_lt d).le
    have hk : ((bitLen a : Int) - (bitLen d : Int) - 1) =
        ((bitLen a : Nat) : Int) - ((bitLen d + 1 : Nat) : Int) := by push_cast; ring
    rw [hk, zpow_sub₀ (by norm_num), zpow_natCast, zpow_natCast, pow_succ,
      div_le_div_iff₀ (by positivity) hd1]
    have hpos : (0 : ℚ) < (2 : ℚ) ^ bitLen d := by positivity
    nlinarith

theorem floorLog2_lt (a d : Nat) (hd : 0 < d) :
    (a : ℚ) / d < (2 : ℚ) ^ (floorLog2 a d + 1) := by
  have hd1 : (0 : ℚ) < d := by exact_mod_cast hd
  unfold floorLog2
  simp only
  split_ifs with h
  · have hA : (a : ℚ) < (2 : ℚ) ^ bitLen a := by exact_mod_cast bitLen_lt a
    have hD : (2 : ℚ) ^ bitLen d ≤ 2 * d := by exact_mod_cast bitLen_le d hd
    have hk : ((bitLen a : Int) - (bitLen d : Int) + 1) =
        ((bitLen a + 1 : Nat) : Int) - ((bitLen d : Nat) : Int) := by push_cast; ring
    rw [hk, zpow_sub₀ (by norm_num), zpow_natCast, zpow_natCast, pow_succ,
      div_lt_div_iff₀ hd1 (by positivity)]
    have hpos : (0 : ℚ) < (2 : ℚ) ^ bitLen a := by positivity
    nlinarith
  · have h2 : ¬ (2 : ℚ) ^ ((bitLen a : Int) - (bitLen d : Int)) ≤ (a : ℚ) / d :=
      fun hle => h ((pow2Le_iff _ a d hd).2 hle)
    rw [sub_add_cancel]
    exact not_le.1 h2

theorem roundHalfEven_err (n d : Nat) (hd : 0 < d) :
    |((roundHalfEven n d : Nat) : ℚ) - (n : ℚ) / d| ≤ 1 / 2 := by
  have hd1 : (0 : ℚ) < d := by exact_mod_cast hd
  have hn : (n : ℚ) = d * (n / d : Nat) + (n % d : Nat) := by
    exact_mod_cast (Nat.div_add_mod n d).symm
  have hr : ((n % d : Nat) : ℚ) < d := by exact_mod_cast Nat.mod_lt n hd
  have hr0 : (0 : ℚ) ≤ ((n % d : Nat) : ℚ) := by positivity
  have key : ∀ m : ℚ, |m * d - n| ≤ d / 2 → |m - (n : ℚ) / d| ≤ 1 / 2 := by
    intro m hm
    have : m - (n : ℚ) / d = (m * d - n) / d := by field_simp
    rw [this, abs_div, abs_of_pos hd1, div_le_iff₀ hd1]
    linarith
  apply key
  unfold roundHalfEven
  simp only
  rw [abs_le]
  split_ifs with h1 h2 h3
  · have h1q : 2 * ((n % d : Nat) : ℚ) < d := by exact_mod_cast h1
    constructor <;> nlinarith
  · have h2q : (d : ℚ) < 2 * ((n % d : Nat) : ℚ) := by exact_mod_cast h2
    push_cast
    constructor <;> nlinarith
  · have h4 : 2 * ((n % d : Nat) : ℚ) = d := by
      have : 2 * (n % d) = d := by omega
      exact_mod_cast this
    constructor <;> nlinarith
  · have h4 : 2 * ((n % d : Nat) : ℚ) = d := by
      have : 2 * (n % d) = d := by omega
      exact_mod_cast this
    push_cast
    constructor <;> nlinarith

theorem roundHalfEven_exact (n d : Nat) (hd : 0 < d) (h : d ∣ n) :
    roundHalfEven n d = n / d := by
  have hr : n % d = 0 := Nat.mod_eq_zero_of_dvd h
  unfold roundHalfEven
  simp [hr, hd]

theorem scaledRound_err (a d : Nat) (e : Int) (hd : 0 < d) :
    |((scaledRound a d e : Nat) : ℚ) * (2 : ℚ) ^ e - (a : ℚ) / d| ≤ (2 : ℚ) ^ e / 2 := by
  have hd1 : (0 : ℚ) < d := by exact_mod_cast hd
  have hs : (0 : ℚ) < (2 : ℚ) ^ e := zpow_two_pos e
  have key : ∀ m : ℚ, |m - (a : ℚ) / d / (2 : ℚ) ^ e| ≤ 1 / 2 →
      |m * (2 : ℚ) ^ e - (a : ℚ) / d| ≤ (2 : ℚ) ^ e / 2 := by
    intro m hm
    have : m * (2 : ℚ) ^ e - (a : ℚ) / d = (m - (a : ℚ) / d / (2 : ℚ) ^ e) * (2 : ℚ) ^ e := by
      field_simp
      ring
    rw [this, abs_mul, abs_of_pos hs]
    nlinarith
  apply key
  unfold scaledRound
  split_ifs with he
  · have h := roundHalfEven_err (a * 2 ^ (-e).toNat) d hd
    have h2 : (a : ℚ) / d / (2 : ℚ) ^ e = ((a * 2 ^ (-e).toNat : Nat) : ℚ) / d := by
      rw [zpow_two_nonpos e (by omega)]
      push_cast
      field_simp
    rw [h2]; exact h
  · have hpos : 0 < d * 2 ^ e.toNat := Nat.mul_pos hd (by positivity)
    have h := roundHalfEven_err a (d * 2 ^ e.toNat) hpos
    have h2 : (a : ℚ) / d / (2 : ℚ) ^ e = (a : ℚ) / ((d * 2 ^ e.toNat : Nat) : ℚ) := by
      rw [zpow_two_nonneg e (by omega)]
      push_cast
      field_simp
    rw [h2]; exact h

theorem scaledRound_exact (a d : Nat) (e : Int) (hd : 0 < d) (he : e ≤ 0) (hdiv : d ∣ a) :
    ((scaledRound a d e : Nat) : ℚ) * (2 : ℚ) ^ e = (a : ℚ) / d := by
  have hd1 : (d : ℚ) ≠ 0 := by exact_mod_cast hd.ne.symm
  unfold scaledRound
  split_ifs with h
  · rw [roundHalfEven_exact _ d hd (Dvd.dvd.mul_right hdiv _),
      Nat.cast_div (Dvd.dvd.mul_right hdiv _) hd1, zpow_two_nonpos e he]
    push_cast
    field_simp
    ring
  · have he0 : e = 0 := by omega
    subst he0
    simp only [Int.toNat_zero, pow_zero, mul_one, zpow_zero]
    rw [roundHalfEven_exact a d hd hdiv, Nat.cast_div hdiv hd1]

theorem quantum_le (a d : Nat) (p : Int) (ha : 0 < a) (hd : 0 < d)
    (hlt : (a : ℚ) / d < (2 : ℚ) ^ p) (hp : -1021 ≤ p) : quantum a d ≤ p - 53 := by
  have h1 := floorLog2_le a d ha hd
  have h2 : (2 : ℚ) ^ floorLog2 a d < (2 : ℚ) ^ p := lt_of_le_of_lt h1 hlt
  have h3 : floorLog2 a d < p := (zpow_lt_zpow_iff_right₀ (by norm_num)).1 h2
  unfold quantum
  omega

theorem natAbs_cast_div (n : Int) (d : Nat) :
    ((n.natAbs : Nat) : ℚ) / d = |(n : ℚ) / d| := by
  rw [abs_div, Nat.abs_cast, Nat.cast_natAbs, Int.cast_abs]

theorem toRat_roundRatio (n : Int) (d : Nat) (hn : n ≠ 0) :
    toRat (roundRatio n d) = (if n < 0 then -1 else 1) *
      (((scaledRound n.natAbs d (quantum n.natAbs d) : Nat) : ℚ) *
        (2 : ℚ) ^ quantum n.natAbs d) := by
  unfold roundRatio toRat
  simp only [hn, if_false]
  split_ifs <;> push_cast <;> ring

theorem ratio_sign (n : Int) (d : Nat) :
    (n : ℚ) / d = (if n < 0 then -1 else 1) * (((n.natAbs : Nat) : ℚ) / d) := by
  rw [Nat.cast_natAbs, Int.cast_abs]
  split_ifs with h
  · have : (n : ℚ) < 0 := by exact_mod_cast h
    rw [abs_of_neg this]; ring
  · have : (0 : ℚ) ≤ n := by exact_mod_cast (not_lt.1 h)
    rw [abs_of_nonneg this]; ring

theorem roundRatio_err (n : Int) (d : Nat) (p : Int) (hd : 0 < d)
    (hlt : |(n : ℚ) / d| < (2 : ℚ) ^ p) (hp : -1021 ≤ p) :
    |toRat (roundRatio n d) - (n : ℚ) / d| ≤ (2 : ℚ) ^ (p - 54) := by
  by_cases hn : n = 0
  · subst hn
    simp only [roundRatio, toRat, if_true, Int.cast_zero, zero_mul, zero_div, sub_zero, abs_zero]
    exact (zpow_two_pos _).le
  · have ha : 0 < n.natAbs := Int.natAbs_pos.2 hn
    have hq := quantum_le n.natAbs d p ha hd (by rw [natAbs_cast_div]; exact hlt) hp
    have herr := scaledRound_err n.natAbs d (quantum n.natAbs d) hd
    have hpow : (2 : ℚ) ^ quantum n.natAbs d / 2 ≤ (2 : ℚ) ^ (p - 54) := by
      have : (2 : ℚ) ^ quantum n.natAbs d / 2 = (2 : ℚ) ^ (quantum n.natAbs d - 1) := by
        rw [zpow_sub₀ (by norm_num), zpow_one]
      rw [this]
      exact zpow_le_zpow_right₀ (by norm_num) (by omega)
    rw [toRat_roundRatio n d hn, ratio_sign n d, ← mul_sub, abs_mul]
    have hs : |(if n < 0 then (-1 : ℚ) else 1)| = 1 := by split_ifs <;> simp
    rw [hs, one_mul]
    exact le_trans herr hpow

theorem roundRatio_exact (n : Int) (d : Nat) (hd : 0 < d) (hdiv : (d : Int) ∣ n)
    (hlt : |(n : ℚ) / d| < (2 : ℚ) ^ (53 : Int)) :
    toRat (roundRatio n d) = (n : ℚ) / d := by
  by_cases hn : n = 0
  · subst hn
    simp [roundRatio, toRat]
  · have ha : 0 < n.natAbs := Int.natAbs_pos.2 hn
    have hq := quantum_le n.natAbs d 53 ha hd (by rw [natAbs_cast_div]; exact hlt) (by norm_num)
    have hdv : d ∣ n.natAbs := Int.natCast_dvd.1 hdiv
    rw [toRat_roundRatio n d hn, ratio_sign n d,
      scaledRound_exact n.natAbs d _ hd (by omega) hdv]

theorem roundDyadic_eq (m e : Int) :
    ∃ (n : Int) (d : Nat), 0 < d ∧ roundDyadic m e = roundRatio n d ∧
      (n : ℚ) / d = (m : ℚ) * (2 : ℚ) ^ e ∧
      (∀ z : Int, (m : ℚ) * (2 : ℚ) ^ e = z → (d : Int) ∣ n) := by
  by_cases he : 0 ≤ e
  · refine ⟨m * 2 ^ e.toNat, 1, Nat.one_pos, by simp [roundDyadic, he], ?_, ?_⟩
    · rw [zpow_two_nonneg e he]; push_cast; ring
    · intro z _; simp
  · have hk : (0 : ℚ) < ((2 ^ (-e).toNat : Nat) : ℚ) := by positivity
    refine ⟨m, 2 ^ (-e).toNat, by positivity, by simp [roundDyadic, he], ?_, ?_⟩
    · rw [zpow_two_nonpos e (by omega)]; ring
    · intro z hz
      rw [zpow_two_nonpos e (by omega), mul_one_div, div_eq_iff hk.ne.symm] at hz
      have hz2 : m = z * ((2 ^ (-e).toNat : Nat) : Int) := by exact_mod_cast hz
      exact ⟨z, by rw [hz2]; ring⟩

theorem roundDyadic_err (m e p : Int) (hlt : |(m : ℚ) * (2 : ℚ) ^ e| < (2 : ℚ) ^ p)
    (hp : -1021 ≤ p) :
    |toRat (roundDyadic m e) - (m : ℚ) * (2 : ℚ) ^ e| ≤ (2 : ℚ) ^ (p - 54) := by
  obtain ⟨n, d, hd, heq, hval, -⟩ := roundDyadic_eq m e
  rw [heq, ← hval]
  exact roundRatio_err n d p hd (by rw [hval]; exact hlt) hp

theorem roundDyadic_exact (m e z : Int) (hz : (m : ℚ) * (2 : ℚ) ^ e = z)
    (hlt : |(z : ℚ)| < (2 : ℚ) ^ (53 : Int)) : toRat (roundDyadic m e) = z := by
  obtain ⟨n, d, hd, heq, hval, hdiv⟩ := roundDyadic_eq m e
  rw [heq, ← hz, ← hval]
  exact roundRatio_exact n d hd (hdiv z hz) (by rw [hval, hz]; exact hlt)

theorem align_exp (n e f : Int) (h : f ≤ e) :
    (((n * 2 ^ (e - f).toNat : Int) : ℚ)) * (2 : ℚ) ^ f = (n : ℚ) * (2 : ℚ) ^ e := by
  have h1 : (2 : ℚ) ^ e = (2 : ℚ) ^ (e - f) * (2 : ℚ) ^ f := by
    rw [← zpow_add₀ (by norm_num)]; congr 1; ring
  rw [h1, zpow_two_nonneg (e - f) (by omega)]
  push_cast
  ring

theorem add_aligned (x y : F64) :
    (((x.num * 2 ^ (x.exp - min x.exp y.exp).toNat +
        y.num * 2 ^ (y.exp - min x.exp y.exp).toNat : Int)) : ℚ) *
      (2 : ℚ) ^ min x.exp y.exp = toRat x + toRat y := by
  rw [Int.cast_add, add_mul, align_exp _ _ _ (min_le_left _ _),
    align_exp _ _ _ (min_le_right _ _)]
  rfl

theorem toRat_add_err (x y : F64) (p : Int) (hlt : |toRat x + toRat y| < (2 : ℚ) ^ p)
    (hp : -1021 ≤ p) :
    |toRat (add x y) - (toRat x + toRat y)| ≤ (2 : ℚ) ^ (p - 54) := by
  have h := add_aligned x y
  unfold add
  simp only
  rw [← h]
  exact roundDyadic_err _ _ p (by rw [h]; exact hlt) hp

theorem toRat_add_exact (x y : F64) (z : Int) (hz : toRat x + toRat y = z)
    (hlt : |(z : ℚ)| < (2 : ℚ) ^ (53 : Int)) : toRat (add x y) = z := by
  have h := add_aligned x y
  unfold add
  simp only
  exact roundDyadic_exact _ _ z (by rw [h]; exact hz) hlt

theorem lt_iff (x y : F64) : lt x y = true ↔ toRat x < toRat y := by
  have hx := align_exp x.num x.exp (min x.exp y.exp) (min_le_left _ _)
  have hy := align_exp y.num y.exp (min x.exp y.exp) (min_le_right _ _)
  have hs := zpow_two_pos (min x.exp y.exp)
  unfold lt toRat
  simp only [decide_eq_true_eq]
  rw [← hx, ← hy, mul_lt_mul_right hs]
  exact Int.cast_lt.symm

theorem trunc_eq_floor (x : F64) (h : 0 ≤ toRat x) : trunc x = ⌊toRat x⌋ := by
  unfold trunc
  split_ifs with he
  · have : toRat x = ((x.num * 2 ^ x.exp.toNat : Int) : ℚ) := by
      unfold toRat; rw [zpow_two_nonneg _ he]; push_cast; ring
    rw [this, Int.floor_intCast]
  · have hnum : 0 ≤ x.num := by
      unfold toRat at h
      have h2 := nonneg_of_mul_nonneg_left h (zpow_two_pos x.exp)
      exact_mod_cast h2
    have : toRat x = (x.num : ℚ) / ((2 ^ (-x.exp).toNat : Nat) : ℚ) := by
      unfold toRat; rw [zpow_two_nonpos _ (by omega)]; ring
    rw [this, Rat.floor_intCast_div_natCast, Int.tdiv_eq_ediv hnum (by positivity)]
    push_cast
    rfl

theorem toRat_ofInt (i : Int) (h : |(i : ℚ)| < (2 : ℚ) ^ (53 : Int)) :
    toRat (ofInt i) = i := by
  have := roundRatio_exact i 1 Nat.one_pos (by simp) (by simpa using h)
  simpa [ofInt] using this

end F64

/-! ## Theorems: `adjustBrightness` -/

theorem adjustmentOK_all : ∀ k : Nat, k < 201 → adjustmentOK ((k : Int) - 100) = true := by
  decide!

theorem toRat_c0 : F64.toRat c0 = 0 := by simp [F64.toRat, c0]

theorem toRat_c255 : F64.toRat c255 = 255 := by simp [F64.toRat, c255]

theorem adjustment_close (b : Int) (hb : -100 ≤ b) (hb2 : b ≤ 100) :
    |F64.toRat (adjustment b) - 51 * (b : ℚ) / 20| ≤ 1 / 2 ^ 30 ∧
    (b % 20 = 0 → F64.toRat (adjustment b) = 51 * (b : ℚ) / 20) := by
  have hk : (((b + 100).toNat : Nat) : Int) - 100 = b := by omega
  have h := adjustmentOK_all (b + 100).toNat (by omega)
  rw [hk] at h
  unfold adjustmentOK at h
  simp only [Bool.and_eq_true, decide_eq_true_eq] at h
  obtain ⟨⟨⟨he, hlo⟩, hhi⟩, hex⟩ := h
  generalize adjustment b = x at he hlo hhi hex ⊢
  have hP : (0 : ℚ) < (2 : ℚ) ^ (-x.exp).toNat := by positivity
  have hx : F64.toRat x = (x.num : ℚ) / (2 : ℚ) ^ (-x.exp).toNat := by
    unfold F64.toRat; rw [zpow_two_nonpos _ he]; push_cast; ring
  have hlo1 : -(20 * (2 : ℚ) ^ (-x.exp).toNat) ≤
      (20 * (x.num : ℚ) - 51 * b * (2 : ℚ) ^ (-x.exp).toNat) * 2 ^ 30 := by exact_mod_cast hlo
  have hhi1 : (20 * (x.num : ℚ) - 51 * b * (2 : ℚ) ^ (-x.exp).toNat) * 2 ^ 30 ≤
      20 * (2 : ℚ) ^ (-x.exp).toNat := by exact_mod_cast hhi
  have hd : (x.num : ℚ) / (2 : ℚ) ^ (-x.exp).toNat - 51 * (b : ℚ) / 20 =
      (20 * (x.num : ℚ) - 51 * b * (2 : ℚ) ^ (-x.exp).toNat) /
        (20 * (2 : ℚ) ^ (-x.exp).toNat) := by
    field_simp
    ring
  constructor
  · rw [hx, hd, abs_le]
    constructor
    · rw [le_div_iff₀ (by positivity)]
      linarith
    · rw [div_le_iff₀ (by positivity)]
      linarith
  · intro h20
    have h1 : 20 * (x.num : ℚ) = 51 * b * (2 : ℚ) ^ (-x.exp).toNat := by
      exact_mod_cast hex h20
    rw [hx, div_eq_div_iff hP.ne.symm (by norm_num)]
    linarith

/-- On a channel value and a brightness in range, the binary64 computation of
`adjustBrightness` gives the exact clamped and truncated value. -/
theorem adjustBrightness_eq_exact (c : Nat) (b : Int) (hc : c ≤ 255) (hb : -100 ≤ b)
    (hb2 : b ≤ 100) : adjustBrightness c b = adjustExact c b := by
  obtain ⟨hX, hXe⟩ := adjustment_close b hb hb2
  have hc1 : (c : ℚ) ≤ 255 := by exact_mod_cast hc
  have hc0 : (0 : ℚ) ≤ (c : ℚ) := by positivity
  have hbq : (-100 : ℚ) ≤ b := by exact_mod_cast hb
  have hbq2 : (b : ℚ) ≤ 100 := by exact_mod_cast hb2
  have hcq : F64.toRat (F64.ofInt (c : Int)) = c := by
    have := F64.toRat_ofInt (c : Int) (by
      rw [Int.cast_natCast, abs_of_nonneg hc0]
      norm_num
      linarith)
    simpa using this
  obtain ⟨hX1, hX2⟩ := abs_le.1 hX
  have hS : |(c : ℚ) + F64.toRat (adjustment b)| < (2 : ℚ) ^ (9 : Int) := by
    rw [abs_lt]
    norm_num at hX1 hX2 ⊢
    constructor <;> linarith
  have hF := F64.toRat_add_err (F64.ofInt (c : Int)) (adjustment b) 9
    (by rw [hcq]; exact hS) (by norm_num)
  rw [hcq] at hF
  have hv : (c : ℚ) + 51 * (b : ℚ) / 20 = ((100 * (c : Int) + 255 * b : Int) : ℚ) / 100 := by
    push_cast; ring
  have facts : (F64.toRat (F64.add (F64.ofInt (c : Int)) (adjustment b)) < 0 ↔
        100 * (c : Int) + 255 * b < 0) ∧
      (255 < F64.toRat (F64.add (F64.ofInt (c : Int)) (adjustment b)) ↔
        25500 < 100 * (c : Int) + 255 * b) ∧
      (0 ≤ 100 * (c : Int) + 255 * b → 100 * (c : Int) + 255 * b ≤ 25500 →
        ⌊F64.toRat (F64.add (F64.ofInt (c : Int)) (adjustment b))⌋ =
          (100 * (c : Int) + 255 * b) / 100) := by
    by_cases h20 : b % 20 = 0
    · obtain ⟨t, ht⟩ : ∃ t, b = 20 * t := ⟨b / 20, by omega⟩
      have hz : F64.toRat (F64.ofInt (c : Int)) + F64.toRat (adjustment b) =
          (((c : Int) + 51 * t : Int) : ℚ) := by
        rw [hcq, hXe h20, ht]; push_cast; ring
      have hFz := F64.toRat_add_exact _ _ _ hz (by
        have h1 : -1000 < (c : Int) + 51 * t := by omega
        have h2 : (c : Int) + 51 * t < 1000 := by omega
        have h3 : (-1000 : ℚ) < (((c : Int) + 51 * t : Int) : ℚ) := by exact_mod_cast h1
        have h4 : (((c : Int) + 51 * t : Int) : ℚ) < 1000 := by exact_mod_cast h2
        rw [abs_lt]
        push_cast at h3 h4 ⊢
        norm_num
        constructor <;> linarith)
      rw [hFz]
      refine ⟨?_, ?_, ?_⟩
      · rw [show (0 : ℚ) = ((0 : Int) : ℚ) by simp, Int.cast_lt]; omega
      · rw [show (255 : ℚ) = ((255 : Int) : ℚ) by simp, Int.cast_lt]; omega
      · intro _ _; rw [Int.floor_intCast]; omega
    · generalize F64.toRat (F64.add (F64.ofInt (c : Int)) (adjustment b)) = F at hF ⊢
      generalize F64.toRat (adjustment b) = X at hF hX1 hX2
      have hr1 : 5 ≤ (100 * (c : Int) + 255 * b) % 100 := by omega
      have hr2 : (100 * (c : Int) + 255 * b) % 100 ≤ 95 := by omega
      have hdm := Int.ediv_add_emod (100 * (c : Int) + 255 * b) 100
      generalize 100 * (c : Int) + 255 * b = v at hv hr1 hr2 hdm ⊢
      generalize hq : v / 100 = q at hdm ⊢
      generalize v % 100 = r at hdm hr1 hr2
      have hvq : (v : ℚ) = 100 * q + r := by rw [← hdm]; push_cast; ring
      have hr1q : (5 : ℚ) ≤ r := by exact_mod_cast hr1
      have hr2q : (r : ℚ) ≤ 95 := by exact_mod_cast hr2
      obtain ⟨hF1, hF2⟩ := abs_le.1 hF
      norm_num at hF1 hF2 hX1 hX2
      have hlo : (q : ℚ) < F := by linarith
      have hhi : F < (q : ℚ) + 1 := by linarith
      refine ⟨?_, ?_, ?_⟩
      · constructor
        · intro h
          have : (q : ℚ) < 0 := by linarith
          have : q < 0 := by exact_mod_cast this
          omega
        · intro h
          have : q + 1 ≤ 0 := by omega
          have : (q : ℚ) + 1 ≤ 0 := by exact_mod_cast this
          linarith
      · constructor
        · intro h
          have : (255 : ℚ) < q + 1 := by linarith
          have : (255 : Int) < q + 1 := by exact_mod_cast this
          omega
        · intro h
          have : 255 ≤ q := by omega
          have : (255 : ℚ) ≤ q := by exact_mod_cast this
          linarith
      · intro _ _
        rw [Int.floor_eq_iff]
        exact ⟨hlo.le, hhi⟩
  obtain ⟨f1, f2, f3⟩ := facts
  have h1 : (F64.lt (F64.add (F64.ofInt (c : Int)) (adjustment b)) c0 = true) ↔
      100 * (c : Int) + 255 * b < 0 := by
    rw [F64.lt_iff, toRat_c0]; exact f1
  have h2 : (F64.lt c255 (F64.add (F64.ofInt (c : Int)) (adjustment b)) = true) ↔
      25500 < 100 * (c : Int) + 255 * b := by
    rw [F64.lt_iff, toRat_c255]; exact f2
  unfold adjustBrightness adjustExact
  simp only [h1, h2]
  split_ifs with g1 g2
  · rfl
  · rfl
  · have hnn : 0 ≤ F64.toRat (F64.add (F64.ofInt (c : Int)) (adjustment b)) := by
      by_contra hneg
      exact g1 (f1.1 (not_le.1 hneg))
    unfold F64.toUint8
    have hq0 : 0 ≤ (100 * (c : Int) + 255 * b) / 100 := by omega
    have hq1 : (100 * (c : Int) + 255 * b) / 100 < 256 := by omega
    rw [F64.trunc_eq_floor _ hnn, f3 (by omega) (by omega), Int.emod_eq_of_lt hq0 hq1]

/-! ## Theorems: the pixel loop -/

theorem Set_Rect (p : RGBAImage) (x y : Int) (c : RGBA) : (p.Set x y c).Rect = p.Rect := by
  unfold RGBAImage.Set
  split_ifs <;> rfl

theorem Set_Pix (p : RGBAImage) (x y : Int) (c : RGBA) (x1 y1 : Int) :
    (p.Set x y c).Pix x1 y1 =
      if Point.In ⟨x, y⟩ p.Rect = true ∧ x1 = x ∧ y1 = y then c else p.Pix x1 y1 := by
  unfold RGBAImage.Set
  by_cases h : Point.In ⟨x, y⟩ p.Rect = true
  · simp [h]
  · simp [h]

/-- One row of the loop: the pixels of row `y` in columns `lo ≤ x < lo + n` that lie in
the rectangle are written, every other pixel is kept. -/
theorem row_loop (f : Int → RGBA) (y lo : Int) (n : Nat) (p : RGBAImage) :
    ((List.range n).foldl (fun (s : RGBAImage) (i : Nat) =>
        RGBAImage.Set s (lo + (i : Int)) y (f (lo + (i : Int)))) p).Rect
        = p.Rect ∧
    ∀ x1 y1, ((List.range n).foldl
        (fun (s : RGBAImage) (i : Nat) =>
        RGBAImage.Set s (lo + (i : Int)) y (f (lo + (i : Int)))) p).Pix x1 y1 =
      if y1 = y ∧ lo ≤ x1 ∧ x1 < lo + n ∧ Point.In ⟨x1, y⟩ p.Rect = true then f x1
      else p.Pix x1 y1 := by
  induction n with
  | zero =>
    refine ⟨rfl, fun x1 y1 => ?_⟩
    have : ¬ (y1 = y ∧ lo ≤ x1 ∧ x1 < lo + ((0 : Nat) : Int) ∧
        Point.In ⟨x1, y⟩ p.Rect = true) := by
      rintro ⟨-, h1, h2, -⟩; omega
    simp only [List.range_zero, List.foldl_nil, if_neg this]
  | succ n ih =>
    obtain ⟨ihR, ihP⟩ := ih
    rw [List.range_succ, List.foldl_append]
    simp only [List.foldl_cons, List.foldl_nil]
    refine ⟨by rw [Set_Rect, ihR], fun x1 y1 => ?_⟩
    rw [Set_Pix, ihR, ihP]
    by_cases hy : y1 = y
    · by_cases hx : x1 = lo + (n : Int)
      · subst hx
        by_cases hin : Point.In ⟨lo + (n : Int), y⟩ p.Rect = true
        · have h2 : (y1 = y ∧ lo ≤ lo + (n : Int) ∧ lo + (n : Int) < lo + ((n + 1 : Nat) : Int) ∧
              Point.In ⟨lo + (n : Int), y⟩ p.Rect = true) := ⟨hy, by omega, by push_cast; omega, hin⟩
          rw [if_pos ⟨hin, rfl, hy⟩, if_pos h2]
        · have h1 : ¬ (Point.In ⟨lo + (n : Int), y⟩ p.Rect = true ∧
              lo + (n : Int) = lo + (n : Int) ∧ y1 = y) := fun h => hin h.1
          have h2 : ¬ (y1 = y ∧ lo ≤ lo + (n : Int) ∧ lo + (n : Int) < lo + ((n + 1 : Nat) : Int) ∧
              Point.In ⟨lo + (n : Int), y⟩ p.Rect = true) := fun h => hin h.2.2.2
          have h3 : ¬ (y1 = y ∧ lo ≤ lo + (n : Int) ∧ lo + (n : Int) < lo + (n : Int) ∧
              Point.In ⟨lo + (n : Int), y⟩ p.Rect = true) := fun h => hin h.2.2.2
          rw [if_neg h1, if_neg h2, if_neg h3]
      · have h1 : ¬ (Point.In ⟨lo + (n : Int), y⟩ p.Rect = true ∧
            x1 = lo + (n : Int) ∧ y1 = y) := fun h => hx h.2.1
        rw [if_neg h1]
        have hiff : (y1 = y ∧ lo ≤ x1 ∧ x1 < lo + (n : Int) ∧ Point.In ⟨x1, y⟩ p.Rect = true) ↔
            (y1 = y ∧ lo ≤ x1 ∧ x1 < lo + ((n + 1 : Nat) : Int) ∧
              Point.In ⟨x1, y⟩ p.Rect = true) := by
          constructor
          · rintro ⟨a, b, c, d⟩; exact ⟨a, b, by push_cast; omega, d⟩
          · rintro ⟨a, b, c, d⟩; exact ⟨a, b, by push_cast at c; omega, d⟩
        simp only [hiff]
    · have h1 : ¬ (Point.In ⟨lo + (n : Int), y⟩ p.Rect = true ∧
          x1 = lo + (n : Int) ∧ y1 = y) := fun h => hy h.2.2
      have h2 : ¬ (y1 = y ∧ lo ≤ x1 ∧ x1 < lo + (n : Int) ∧
          Point.In ⟨x1, y⟩ p.Rect = true) := fun h => hy h.1
      have h3 : ¬ (y1 = y ∧ lo ≤ x1 ∧ x1 < lo + ((n + 1 : Nat) : Int) ∧
          Point.In ⟨x1, y⟩ p.Rect = true) := fun h => hy h.1
      rw [if_neg h1, if_neg h2, if_neg h3]

/-- The nested loop: the pixels in rows `ylo ≤ y < ylo + m` and columns
`xlo ≤ x < xlo + n` that lie in the rectangle are written, every other pixel is kept. -/
theorem grid_loop (g : Int → Int → RGBA) (xlo ylo : Int) (n m : Nat) (p : RGBAImage) :
    ((List.range m).foldl (fun (s : RGBAImage) (j : Nat) =>
      (List.range n).foldl (fun (s : RGBAImage) (i : Nat) =>
        RGBAImage.Set s (xlo + (i : Int)) (ylo + (j : Int))
          (g (xlo + (i : Int)) (ylo + (j : Int)))) s) p).Rect = p.Rect ∧
    ∀ x1 y1, ((List.range m).foldl (fun (s : RGBAImage) (j : Nat) =>
      (List.range n).foldl (fun (s : RGBAImage) (i : Nat) =>
        RGBAImage.Set s (xlo + (i : Int)) (ylo + (j : Int))
          (g (xlo + (i : Int)) (ylo + (j : Int)))) s) p).Pix x1 y1 =
      if ylo ≤ y1 ∧ y1 < ylo + m ∧ xlo ≤ x1 ∧ x1 < xlo + n ∧
          Point.In ⟨x1, y1⟩ p.Rect = true then g x1 y1
      else p.Pix x1 y1 := by
  induction m with
  | zero =>
    refine ⟨rfl, fun x1 y1 => ?_⟩
    have : ¬ (ylo ≤ y1 ∧ y1 < ylo + ((0 : Nat) : Int) ∧ xlo ≤ x1 ∧ x1 < xlo + n ∧
        Point.In ⟨x1, y1⟩ p.Rect = true) := by
      rintro ⟨h1, h2, -⟩; omega
    simp only [List.range_zero, List.foldl_nil, if_neg this]
  | succ m ih =>
    obtain ⟨ihR, ihP⟩ := ih
    rw [List.range_succ, List.foldl_append]
    simp only [List.foldl_cons, List.foldl_nil]
    obtain ⟨rR, rP⟩ := row_loop (fun x => g x (ylo + (m : Int))) (ylo + (m : Int)) xlo n
      ((List.range m).foldl (fun (s : RGBAImage) (j : Nat) =>
        (List.range n).foldl (fun (s : RGBAImage) (i : Nat) =>
          RGBAImage.Set s (xlo + (i : Int)) (ylo + (j : Int))
            (g (xlo + (i : Int)) (ylo + (j : Int)))) s) p)
    refine ⟨by rw [rR, ihR], fun x1 y1 => ?_⟩
    rw [rP, ihR, ihP]
    by_cases hy : y1 = ylo + (m : Int)
    · subst hy
      by_cases hC : xlo ≤ x1 ∧ x1 < xlo + (n : Int) ∧
          Point.In ⟨x1, ylo + (m : Int)⟩ p.Rect = true
      · rw [if_pos ⟨rfl, hC⟩, if_pos ⟨by omega, by push_cast; omega, hC⟩]
      · have h1 : ¬ (ylo + (m : Int) = ylo + (m : Int) ∧ xlo ≤ x1 ∧ x1 < xlo + (n : Int) ∧
            Point.In ⟨x1, ylo + (m : Int)⟩ p.Rect = true) := fun h => hC h.2
        have h2 : ¬ (ylo ≤ ylo + (m : Int) ∧ ylo + (m : Int) < ylo + (m : Int) ∧ xlo ≤ x1 ∧
            x1 < xlo + (n : Int) ∧ Point.In ⟨x1, ylo + (m : Int)⟩ p.Rect = true) :=
          fun h => hC h.2.2
        have h3 : ¬ (ylo ≤ ylo + (m : Int) ∧ ylo + (m : Int) < ylo + ((m + 1 : Nat) : Int) ∧
            xlo ≤ x1 ∧ x1 < xlo + (n : Int) ∧
            Point.In ⟨x1, ylo + (m : Int)⟩ p.Rect = true) := fun h => hC h.2.2
        rw [if_neg h1, if_neg h2, if_neg h3]
    · have h1 : ¬ (y1 = ylo + (m : Int) ∧ xlo ≤ x1 ∧ x1 < xlo + (n : Int) ∧
          Point.In ⟨x1, ylo + (m : Int)⟩ p.Rect = true) := fun h => hy h.1
      rw [if_neg h1]
      have hiff : (ylo ≤ y1 ∧ y1 < ylo + (m : Int) ∧ xlo ≤ x1 ∧ x1 < xlo + (n : Int) ∧
            Point.In ⟨x1, y1⟩ p.Rect = true) ↔
          (ylo ≤ y1 ∧ y1 < ylo + ((m + 1 : Nat) : Int) ∧ xlo ≤ x1 ∧ x1 < xlo + (n : Int) ∧
            Point.In ⟨x1, y1⟩ p.Rect = true) := by
        constructor
        · rintro ⟨a, b, c⟩; exact ⟨a, by push_cast; omega, c⟩
        · rintro ⟨a, b, c⟩; exact ⟨a, by push_cast at b; omega, c⟩
      simp only [hiff]

theorem In_iff (x y : Int) (r : Rectangle) :
    Point.In ⟨x, y⟩ r = true ↔ r.Min.X ≤ x ∧ x < r.Max.X ∧ r.Min.Y ≤ y ∧ y < r.Max.Y := by
  simp [Point.In, and_assoc]

/-- The colour the loop writes at `(x, y)`. -/
theorem pixelLoop_spec (img : Image) (brightness : Int) :
    (pixelLoop img brightness).Rect = img.Bounds ∧
    ∀ x y, Point.In ⟨x, y⟩ img.Bounds = true →
      (pixelLoop img brightness).Pix x y =
        ⟨adjustBrightness (RGBAModel_Convert (img.At x y)).R brightness,
         adjustBrightness (RGBAModel_Convert (img.At x y)).G brightness,
         adjustBrightness (RGBAModel_Convert (img.At x y)).B brightness,
         (RGBAModel_Convert (img.At x y)).A⟩ := by
  obtain ⟨hR, hP⟩ := grid_loop (fun x y =>
      ⟨adjustBrightness (RGBAModel_Convert (img.At x y)).R brightness,
       adjustBrightness (RGBAModel_Convert (img.At x y)).G brightness,
       adjustBrightness (RGBAModel_Convert (img.At x y)).B brightness,
       (RGBAModel_Convert (img.At x y)).A⟩)
    img.Bounds.Min.X img.Bounds.Min.Y (img.Bounds.Max.X - img.Bounds.Min.X).toNat
    (img.Bounds.Max.Y - img.Bounds.Min.Y).toNat (NewRGBA img.Bounds)
  unfold pixelLoop forRange
  simp only []
  refine ⟨hR, fun x y hin => ?_⟩
  have hin2 := (In_iff x y img.Bounds).1 hin
  have hc : img.Bounds.Min.Y ≤ y ∧
      y < img.Bounds.Min.Y + (((img.Bounds.Max.Y - img.Bounds.Min.Y).toNat : Nat) : Int) ∧
      img.Bounds.Min.X ≤ x ∧
      x < img.Bounds.Min.X + (((img.Bounds.Max.X - img.Bounds.Min.X).toNat : Nat) : Int) ∧
      Point.In ⟨x, y⟩ (NewRGBA img.Bounds).Rect = true :=
    ⟨hin2.2.2.1, by omega, hin2.1, by omega, hin⟩
  have := hP x y
  rw [if_pos hc] at this
  exact this

/-! ## Theorems: strings -/

theorem splitChars_length (sep : Char) (l : List Char) :
    (splitChars sep l).length = l.count sep + 1 := by
  induction l with
  | nil => simp [splitChars]
  | cons c cs ih =>
    by_cases h : c = sep
    · subst h
      simp [splitChars, ih]
    · have hne : (c == sep) = false := by simpa using h
      rw [List.count_cons, hne]
      simp only [splitChars, h, if_false]
      cases hs : splitChars sep cs with
      | nil => rw [hs] at ih; simp at ih
      | cons p ps => rw [hs] at ih; simpa using ih

theorem splitChars_no_sep (sep : Char) (l : List Char) (h : l.count sep = 0) :
    splitChars sep l = [l] := by
  induction l with
  | nil => simp [splitChars]
  | cons c cs ih =>
    by_cases hc : c = sep
    · subst hc; simp at h
    · have hne : (c == sep) = false := by simpa using hc
      rw [List.count_cons, hne] at h
      simp only [splitChars, hc, if_false]
      rw [ih (by simpa using h)]

theorem splitChars_one_sep (sep : Char) (l : List Char) (h : l.count sep = 1) :
    splitChars sep l =
      [l.takeWhile (fun c => c ≠ sep), (l.dropWhile (fun c => c ≠ sep)).drop 1] := by
  induction l with
  | nil => simp at h
  | cons c cs ih =>
    by_cases hc : c = sep
    · subst hc
      have h0 : cs.count c = 0 := by simpa using h
      simp [splitChars, splitChars_no_sep c cs h0]
    · have hne : (c == sep) = false := by simpa using hc
      rw [List.count_cons, hne] at h
      simp only [splitChars, hc, if_false]
      rw [ih (by simpa using h)]
      simp [List.takeWhile, List.dropWhile, hc]

theorem Split_length (s : String) : (Split s ',').length = commaCount s + 1 := by
  simp [Split, commaCount, splitChars_length]

theorem Split_one (s : String) (h : commaCount s = 1) :
    Split s ',' = [beforeComma s, afterComma s] := by
  unfold Split beforeComma afterComma
  rw [splitChars_one_sep ',' s.data h]
  rfl

theorem hasPrefix_png_not_jpeg (h : String) (h1 : HasPrefix h "data:image/png" = true) :
    HasPrefix h "data:image/jpeg" = false ∧ HasPrefix h "data:image/jpg" = false := by
  unfold HasPrefix at *
  rw [List.isPrefixOf_iff_prefix] at h1
  obtain ⟨t, ht⟩ := h1
  rw [← ht]
  constructor <;> simp [List.isPrefixOf]

/-! ## Theorems: `changeImageBrightness` -/

theorem report_value (H : Host) (t : List Event) (args : List String) (r : String) :
    (reportAndReturnNil H t args).value ≠ some (some r) := by
  unfold reportAndReturnNil
  simp only
  split_ifs <;> simp

theorem report_trace (H : Host) (t : List Event) (args : List String) :
    (reportAndReturnNil H t args).trace = t ++ [Event.call "console.error" args] := rfl

theorem cib_range (H : Host) (L : Codecs) (a0 a1 : JSValue) (rest : List JSValue) (b : Int)
    (hb : a1.Int = some b) (hr : b < -100 ∨ 100 < b) :
    changeImageBrightness H L (a0 :: a1 :: rest) =
      reportAndReturnNil H [] ["Brightness must be between -100 and 100."] := by
  have hr2 : b < -100 ∨ b > 100 := hr
  simp only [changeImageBrightness, hb, if_pos hr2]

theorem cib_malformed (H : Host) (L : Codecs) (a0 a1 : JSValue) (rest : List JSValue) (b : Int)
    (hb : a1.Int = some b) (h1 : -100 ≤ b) (h2 : b ≤ 100) (hc : commaCount a0.String ≠ 1) :
    changeImageBrightness H L (a0 :: a1 :: rest) =
      reportAndReturnNil H [] ["Invalid Data URL format."] := by
  have hr : ¬ (b < -100 ∨ b > 100) := by omega
  have hl : (Split a0.String ',').length ≠ 2 := by rw [Split_length]; omega
  simp only [changeImageBrightness, hb, if_neg hr]
  rw [if_pos hl]

theorem cib_process (H : Host) (L : Codecs) (a0 a1 : JSValue) (rest : List JSValue) (b : Int)
    (hb : a1.Int = some b) (h1 : -100 ≤ b) (h2 : b ≤ 100) (hc : commaCount a0.String = 1) :
    changeImageBrightness H L (a0 :: a1 :: rest) =
      processImage H L b (beforeComma a0.String) (afterComma a0.String) := by
  have hr : ¬ (b < -100 ∨ b > 100) := by omega
  simp only [changeImageBrightness, hb, if_neg hr, Split_one _ hc]
  simp

theorem processImage_trace_head (H : Host) (L : Codecs) (b : Int) (header payload : String) :
    ∃ tr, (processImage H L b header payload).trace = Event.base64Decode payload :: tr := by
  unfold processImage
  cases L.base64Decode payload with
  | error err => exact ⟨_, rfl⟩
  | ok data =>
    simp only
    split <;> first | exact ⟨_, rfl⟩ | (split <;> exact ⟨_, rfl⟩)

theorem processImage_b64_error (H : Host) (L : Codecs) (b : Int) (header payload err : String)
    (h : L.base64Decode payload = .error err) :
    processImage H L b header payload =
      reportAndReturnNil H [Event.base64Decode payload]
        ["Failed to decode Base64 image data:", err] := by
  unfold processImage
  rw [h]

theorem processImage_unsupported (H : Host) (L : Codecs) (b : Int) (header payload : String)
    (data : List Nat) (h : L.base64Decode payload = .ok data)
    (hpng : HasPrefix header "data:image/png" = false)
    (hjpeg : HasPrefix header "data:image/jpeg" = false)
    (hjpg : HasPrefix header "data:image/jpg" = false) :
    processImage H L b header payload =
      reportAndReturnNil H [Event.base64Decode payload]
        ["Unsupported image format. Only JPEG and PNG are supported."] := by
  unfold processImage
  rw [h]
  simp [hpng, hjpeg, hjpg]

theorem processImage_png (H : Host) (L : Codecs) (b : Int) (header payload : String)
    (data : List Nat) (h : L.base64Decode payload = .ok data)
    (hpng : HasPrefix header "data:image/png" = true) :
    processImage H L b header payload =
      match L.pngDecode data with
      | .error err => reportAndReturnNil H [Event.base64Decode payload, Event.pngDecode data]
          ["Failed to decode image:", err]
      | .ok img =>
        match L.pngEncode (pixelLoop img b) with
        | .error err => reportAndReturnNil H
            [Event.base64Decode payload, Event.pngDecode data, Event.pngEncode]
            ["Failed to encode image:", err]
        | .ok buf => ⟨some (some ("data:image/" ++ "png" ++ ";base64," ++ L.base64Encode buf)),
            [Event.base64Decode payload, Event.pngDecode data, Event.pngEncode,
              Event.base64Encode buf, Event.println "Image brightness changed by:" b]⟩ := by
  unfold processImage
  rw [h]
  simp only [hpng, if_true]
  cases L.pngDecode data with
  | error err => rfl
  | ok img =>
    simp only [if_true]
    cases L.pngEncode (pixelLoop img b) with
    | error err => rfl
    | ok buf => rfl

theorem processImage_jpeg (H : Host) (L : Codecs) (b : Int) (header payload : String)
    (data : List Nat) (h : L.base64Decode payload = .ok data)
    (hpng : HasPrefix header "data:image/png" = false)
    (hj : HasPrefix header "data:image/jpeg" = true ∨ HasPrefix header "data:image/jpg" = true) :
    processImage H L b header payload =
      match L.jpegDecode data with
      | .error err => reportAndReturnNil H [Event.base64Decode payload, Event.jpegDecode data]
          ["Failed to decode image:", err]
      | .ok img =>
        match L.jpegEncode (pixelLoop img b) 95 with
        | .error err => reportAndReturnNil H
            [Event.base64Decode payload, Event.jpegDecode data, Event.jpegEncode 95]
            ["Failed to encode image:", err]
        | .ok buf => ⟨some (some ("data:image/" ++ "jpeg" ++ ";base64," ++ L.base64Encode buf)),
            [Event.base64Decode payload, Event.jpegDecode data, Event.jpegEncode 95,
              Event.base64Encode buf, Event.println "Image brightness changed by:" b]⟩ := by
  have hj2 : (HasPrefix header "data:image/jpeg" || HasPrefix header "data:image/jpg") = true := by
    rcases hj with h1 | h1 <;> simp [h1]
  unfold processImage
  rw [h]
  simp only [hpng, hj2, if_true, Bool.false_eq_true, if_false]
  cases L.jpegDecode data with
  | error err => rfl
  | ok img =>
    have hne : ¬ ("jpeg" = "png") := by decide
    simp only [hne, if_true, if_false]
    cases L.jpegEncode (pixelLoop img b) 95 with
    | error err => rfl
    | ok buf => rfl

/-! ## Theorems: the channel transform at the ends and at zero -/

theorem adjustBrightness_full (c : Nat) (hc : c ≤ 255) : adjustBrightness c 100 = 255 := by
  rw [adjustBrightness_eq_exact c 100 hc (by norm_num) (by norm_num)]
  unfold adjustExact
  simp only
  split_ifs <;> omega

theorem adjustBrightness_none (c : Nat) (hc : c ≤ 255) : adjustBrightness c (-100) = 0 := by
  rw [adjustBrightness_eq_exact c (-100) hc (by norm_num) (by norm_num)]
  unfold adjustExact
  simp only
  split_ifs <;> omega

theorem adjustBrightness_zero (c : Nat) (hc : c ≤ 255) : adjustBrightness c 0 = c := by
  rw [adjustBrightness_eq_exact c 0 hc (by norm_num) (by norm_num)]
  unfold adjustExact
  simp only
  split_ifs <;> omega

theorem Convert_le (c : Color) :
    (RGBAModel_Convert c).R ≤ 255 ∧ (RGBAModel_Convert c).G ≤ 255 ∧
    (RGBAModel_Convert c).B ≤ 255 ∧ (RGBAModel_Convert c).A ≤ 255 := by
  unfold RGBAModel_Convert
  simp only
  omega

/-! ## The claims -/

/-- C1: for a channel value `c` in `0..255` and a brightness `b` in `[-100, 100]`,
`adjustBrightness c b` is `c + (b / 100) * 255` clamped to `[0, 255]` and truncated:
`0` when the exact value is negative, `255` when it exceeds `255`, and its integer
part otherwise. -/
theorem adjustBrightness_clamp (c : Nat) (b : Int) (hc : c ≤ 255) (hb : -100 ≤ b ∧ b ≤ 100) :
    ((adjustBrightness c b : Nat) : Int) =
      if (c : ℚ) + ((b : ℚ) / 100) * 255 < 0 then 0
      else if (c : ℚ) + ((b : ℚ) / 100) * 255 > 255 then 255
      else ⌊(c : ℚ) + ((b : ℚ) / 100) * 255⌋ := by
  rw [adjustBrightness_eq_exact c b hc hb.1 hb.2]
  have hpos : (0 : ℚ) < ((100 : Nat) : ℚ) := by norm_num
  have hv : (c : ℚ) + ((b : ℚ) / 100) * 255 =
      ((100 * (c : Int) + 255 * b : Int) : ℚ) / ((100 : Nat) : ℚ) := by
    push_cast; ring
  rw [hv]
  have h0 : ((100 * (c : Int) + 255 * b : Int) : ℚ) / ((100 : Nat) : ℚ) < 0 ↔
      100 * (c : Int) + 255 * b < 0 := by
    rw [div_lt_iff₀ hpos, zero_mul]
    exact_mod_cast Iff.rfl
  have h1 : ((100 * (c : Int) + 255 * b : Int) : ℚ) / ((100 : Nat) : ℚ) > 255 ↔
      25500 < 100 * (c : Int) + 255 * b := by
    rw [gt_iff_lt, lt_div_iff₀ hpos]
    have : (255 : ℚ) * ((100 : Nat) : ℚ) = ((25500 : Int) : ℚ) := by norm_num
    rw [this, Int.cast_lt]
  simp only [h0, h1, Rat.floor_intCast_div_natCast]
  unfold adjustExact
  simp only
  split_ifs with g1 g2
  · rfl
  · rfl
  · have : 0 ≤ (100 * (c : Int) + 255 * b) / 100 := by omega
    rw [Int.toNat_of_nonneg this]
    rfl

theorem adjustBrightness_clamp_witness :
    (10 ≤ 255 ∧ ((-100 : Int) ≤ 20 ∧ (20 : Int) ≤ 100)) ∧
    ((adjustBrightness 10 20 : Nat) : Int) =
      if ((10 : Nat) : ℚ) + (((20 : Int) : ℚ) / 100) * 255 < 0 then 0
      else if ((10 : Nat) : ℚ) + (((20 : Int) : ℚ) / 100) * 255 > 255 then 255
      else ⌊((10 : Nat) : ℚ) + (((20 : Int) : ℚ) / 100) * 255⌋ :=
  ⟨by decide, adjustBrightness_clamp 10 20 (by decide) (by decide)⟩

/-- C2: the pixel loop of `changeImageBrightness` produces a grid with the bounds of
the input in which the pixel at each `(x, y)` of the bounds is
`(adjustBrightness R b, adjustBrightness G b, adjustBrightness B b, A)`, where
`(R, G, B, A)` is the RGBA conversion of the input pixel at `(x, y)`; in particular
a pixel `(10, 200, 0, 128)` becomes `(61, 251, 51, 128)` at brightness `20`. -/
theorem pixelLoop_pixels (img : Image) (b : Int) (x y : Int)
    (hin : Point.In ⟨x, y⟩ img.Bounds = true) :
    (pixelLoop img b).Rect = img.Bounds ∧
    (pixelLoop img b).Pix x y =
      ⟨adjustBrightness (RGBAModel_Convert (img.At x y)).R b,
       adjustBrightness (RGBAModel_Convert (img.At x y)).G b,
       adjustBrightness (RGBAModel_Convert (img.At x y)).B b,
       (RGBAModel_Convert (img.At x y)).A⟩ ∧
    (RGBAModel_Convert (img.At x y) = ⟨10, 200, 0, 128⟩ →
      (pixelLoop img 20).Pix x y = ⟨61, 251, 51, 128⟩) := by
  refine ⟨(pixelLoop_spec img b).1, (pixelLoop_spec img b).2 x y hin, fun hpx => ?_⟩
  rw [(pixelLoop_spec img 20).2 x y hin, hpx]
  have h1 : adjustBrightness 10 20 = 61 := by decide
  have h2 : adjustBrightness 200 20 = 251 := by decide
  have h3 : adjustBrightness 0 20 = 51 := by decide
  simp only [h1, h2, h3]

theorem pixelLoop_pixels_witness :
    Point.In ⟨0, 0⟩ (onePixel ⟨10, 200, 0, 128⟩).Bounds = true ∧
    (pixelLoop (onePixel ⟨10, 200, 0, 128⟩) 20).Pix 0 0 = ⟨61, 251, 51, 128⟩ :=
  ⟨by decide, (pixelLoop_pixels (onePixel ⟨10, 200, 0, 128⟩) 20 0 0 (by decide)).2.2 (by decide)⟩

/-- C3: at brightness `100` the loop sets the R, G and B channels of every pixel of
the bounds to `255`, at brightness `-100` to `0`, whatever the original values;
alpha is the alpha of the RGBA conversion of the input pixel in both cases. -/
theorem pixelLoop_saturates (img : Image) (x y : Int)
    (hin : Point.In ⟨x, y⟩ img.Bounds = true) :
    (pixelLoop img 100).Pix x y = ⟨255, 255, 255, (RGBAModel_Convert (img.At x y)).A⟩ ∧
    (pixelLoop img (-100)).Pix x y = ⟨0, 0, 0, (RGBAModel_Convert (img.At x y)).A⟩ := by
  obtain ⟨hR, hG, hB, -⟩ := Convert_le (img.At x y)
  constructor
  · rw [(pixelLoop_spec img 100).2 x y hin, adjustBrightness_full _ hR,
      adjustBrightness_full _ hG, adjustBrightness_full _ hB]
  · rw [(pixelLoop_spec img (-100)).2 x y hin, adjustBrightness_none _ hR,
      adjustBrightness_none _ hG, adjustBrightness_none _ hB]

theorem pixelLoop_saturates_witness :
    Point.In ⟨0, 0⟩ (onePixel ⟨10, 200, 0, 128⟩).Bounds = true ∧
    (pixelLoop (onePixel ⟨10, 200, 0, 128⟩) 100).Pix 0 0 = ⟨255, 255, 255, 128⟩ ∧
    (pixelLoop (onePixel ⟨10, 200, 0, 128⟩) (-100)).Pix 0 0 = ⟨0, 0, 0, 128⟩ :=
  ⟨by decide, pixelLoop_saturates (onePixel ⟨10, 200, 0, 128⟩) 0 0 (by decide)⟩

/-- C4: at brightness `0` the loop yields a grid with the bounds of the input whose
pixel at each `(x, y)` of the bounds is the RGBA conversion of the input pixel:
`adjustBrightness c 0 = c` for every channel value `c` in `0..255`. -/
theorem pixelLoop_identity (img : Image) (x y : Int)
    (hin : Point.In ⟨x, y⟩ img.Bounds = true) :
    (pixelLoop img 0).Rect = img.Bounds ∧
    (pixelLoop img 0).Pix x y = RGBAModel_Convert (img.At x y) ∧
    (∀ c : Nat, c ≤ 255 → adjustBrightness c 0 = c) := by
  obtain ⟨hR, hG, hB, -⟩ := Convert_le (img.At x y)
  refine ⟨(pixelLoop_spec img 0).1, ?_, fun c hc => adjustBrightness_zero c hc⟩
  rw [(pixelLoop_spec img 0).2 x y hin, adjustBrightness_zero _ hR,
    adjustBrightness_zero _ hG, adjustBrightness_zero _ hB]

theorem pixelLoop_identity_witness :
    Point.In ⟨0, 0⟩ (onePixel ⟨10, 200, 0, 128⟩).Bounds = true ∧
    (pixelLoop (onePixel ⟨10, 200, 0, 128⟩) 0).Pix 0 0 = ⟨10, 200, 0, 128⟩ :=
  ⟨by decide, by
    have h := (pixelLoop_identity (onePixel ⟨10, 200, 0, 128⟩) 0 0 (by decide)).2.1
    rw [h]
    decide⟩

/-- C5: a call with brightness `101` on a host whose global object has no function
named `console.error` makes the out-of-range report and panics in it: it does
not return `nil`.  Nothing is split or decoded before. -/
theorem brightness_out_of_range_panics :
    changeImageBrightness stockHost sampleCodecs
        [jsString "data:image/png;base64,CsgAgA==", jsNumber 101] =
      ⟨none, [Event.call "console.error" ["Brightness must be between -100 and 100."]]⟩ := by
  decide

/-- C6, as stated, fails: an image string with two commas does not proceed to the
base64 decoding of what follows the first comma; the call takes the branch of
the malformed envelope, where it makes the report, and decodes nothing. -/
theorem two_commas_rejected :
    commaCount "data:image/png;base64,CsgA,gA==" = 2 ∧
    changeImageBrightness stockHost sampleCodecs
        [jsString "data:image/png;base64,CsgA,gA==", jsNumber 0] =
      ⟨none, [Event.call "console.error" ["Invalid Data URL format."]]⟩ := by
  decide

/-- C6 (amended): the image string is split at every comma, into one segment more
than it has commas; on every host the call takes the branch of the malformed
envelope, making the report `Invalid Data URL format.` and nothing else, exactly
when the string does not have exactly one comma; and when it has exactly one,
the header is the text before the comma, the payload the text after it, and the
call goes on to the base64 decoding of the payload. -/
theorem envelope_split (H : Host) (L : Codecs) (a0 a1 : JSValue) (rest : List JSValue)
    (b : Int) (hb : a1.Int = some b) (h1 : -100 ≤ b) (h2 : b ≤ 100) :
    (Split a0.String ',').length = commaCount a0.String + 1 ∧
    (commaCount a0.String ≠ 1 ↔
      (changeImageBrightness H L (a0 :: a1 :: rest)).trace =
        [Event.call "console.error" ["Invalid Data URL format."]]) ∧
    (commaCount a0.String = 1 →
      Split a0.String ',' = [beforeComma a0.String, afterComma a0.String] ∧
      ∃ tr, (changeImageBrightness H L (a0 :: a1 :: rest)).trace =
        Event.base64Decode (afterComma a0.String) :: tr) := by
  refine ⟨Split_length _, ⟨fun hc => ?_, fun h hc => ?_⟩, fun hc => ⟨Split_one _ hc, ?_⟩⟩
  · rw [cib_malformed H L a0 a1 rest b hb h1 h2 hc]
    rfl
  · rw [cib_process H L a0 a1 rest b hb h1 h2 hc] at h
    obtain ⟨tr, htr⟩ :=
      processImage_trace_head H L b (beforeComma a0.String) (afterComma a0.String)
    rw [htr] at h
    simp at h
  · rw [cib_process H L a0 a1 rest b hb h1 h2 hc]
    exact processImage_trace_head H L b (beforeComma a0.String) (afterComma a0.String)

theorem envelope_split_witness :
    ((jsNumber 20).Int = some 20 ∧ (-100 : Int) ≤ 20 ∧ (20 : Int) ≤ 100 ∧
      commaCount "data:image/png;base64,CsgAgA==" = 1) ∧
    Split "data:image/png;base64,CsgAgA==" ',' = ["data:image/png;base64", "CsgAgA=="] ∧
    ∃ tr, (changeImageBrightness stockHost sampleCodecs
        [jsString "data:image/png;base64,CsgAgA==", jsNumber 20]).trace =
      Event.base64Decode "CsgAgA==" :: tr :=
  ⟨⟨by decide, by decide, by decide, by decide⟩,
    (envelope_split stockHost sampleCodecs (jsString "data:image/png;base64,CsgAgA==")
      (jsNumber 20) [] 20 (by decide) (by decide) (by decide)).2.2 (by decide)⟩

/-- C7: on a host whose global object has no function named `console.error`, a call
with an image string without a comma, and one with two commas, make the
invalid-data-URL report and panic in it; a call whose payload the base64
decoder rejects panics too: none of them returns `nil`. -/
theorem malformed_envelope_panics :
    changeImageBrightness stockHost sampleCodecs [jsString "not a data URL", jsNumber 20] =
      ⟨none, [Event.call "console.error" ["Invalid Data URL format."]]⟩ ∧
    changeImageBrightness stockHost sampleCodecs
        [jsString "data:image/png;base64,CsgA,gA==", jsNumber 20] =
      ⟨none, [Event.call "console.error" ["Invalid Data URL format."]]⟩ ∧
    (changeImageBrightness stockHost sampleCodecs
        [jsString "data:image/png;base64,Cs*AgA==", jsNumber 20]).value = none := by
  decide

theorem processImage_supported (H : Host) (L : Codecs) (b : Int) (header payload : String)
    (data : List Nat) (h : L.base64Decode payload = .ok data)
    (hp : HasPrefix header "data:image/png" = true ∨ HasPrefix header "data:image/jpeg" = true ∨
      HasPrefix header "data:image/jpg" = true) :
    Event.call "console.error" ["Unsupported image format. Only JPEG and PNG are supported."] ∉
        (processImage H L b header payload).trace ∧
    Event.call "console.error" ["Unsupported image format during encoding."] ∉
        (processImage H L b header payload).trace := by
  by_cases hpng : HasPrefix header "data:image/png" = true
  · rw [processImage_png H L b header payload data h hpng]
    cases hdec : L.pngDecode data with
    | error err => simp [hdec, reportAndReturnNil]
    | ok img =>
      simp only [hdec]
      cases henc : L.pngEncode (pixelLoop img b) with
      | error err => simp [henc, reportAndReturnNil]
      | ok buf => simp [henc]
  · have hpng2 : HasPrefix header "data:image/png" = false := by simpa using hpng
    have hj : HasPrefix header "data:image/jpeg" = true ∨
        HasPrefix header "data:image/jpg" = true := by
      rcases hp with h1 | h1
      · exact absurd h1 hpng
      · exact h1
    rw [processImage_jpeg H L b header payload data h hpng2 hj]
    cases hdec : L.jpegDecode data with
    | error err => simp [hdec, reportAndReturnNil]
    | ok img =>
      simp only [hdec]
      cases henc : L.jpegEncode (pixelLoop img b) 95 with
      | error err => simp [henc, reportAndReturnNil]
      | ok buf => simp [henc]

/-- C8: on a host whose global object has no function named `console.error`, a call
with the header `data:image/gif;base64` and a payload that decodes makes the
unsupported-format report, after the base64 call alone, and panics in it: it
does not return `nil`. -/
theorem unsupported_format_panics :
    changeImageBrightness stockHost sampleCodecs
        [jsString "data:image/gif;base64,CsgAgA==", jsNumber 20] =
      ⟨none, [Event.base64Decode "CsgAgA==", Event.call "console.error"
        ["Unsupported image format. Only JPEG and PNG are supported."]]⟩ := by
  decide

/-- C9: whenever `changeImageBrightness` returns a string, that string is
`"data:image/" ++ tag ++ ";base64," ++ base64(encoded bytes)`, where the tag is
`png` and the bytes the PNG encoding of the transformed grid when the header has
the prefix `data:image/png`, and the tag is `jpeg` and the bytes the JPEG encoding
at quality 95 when the header has the prefix `data:image/jpeg` or `data:image/jpg`;
an input declared as jpeg or jpg never gives an output declared as jpg or png, and
an input declared as png never gives an output declared as jpeg. -/
theorem output_format (H : Host) (L : Codecs) (a0 a1 : JSValue) (rest : List JSValue)
    (r : String)
    (h : (changeImageBrightness H L (a0 :: a1 :: rest)).value = some (some r)) :
    ∃ (b : Int) (data : List Nat) (img : Image) (buf : List Nat) (tag : String),
      a1.Int = some b ∧ commaCount a0.String = 1 ∧
      L.base64Decode (afterComma a0.String) = .ok data ∧
      r = "data:image/" ++ tag ++ ";base64," ++ L.base64Encode buf ∧
      ((HasPrefix (beforeComma a0.String) "data:image/png" = true ∧ tag = "png" ∧
          L.pngDecode data = .ok img ∧ L.pngEncode (pixelLoop img b) = .ok buf) ∨
        ((HasPrefix (beforeComma a0.String) "data:image/jpeg" = true ∨
            HasPrefix (beforeComma a0.String) "data:image/jpg" = true) ∧ tag = "jpeg" ∧
          L.jpegDecode data = .ok img ∧ L.jpegEncode (pixelLoop img b) 95 = .ok buf)) ∧
      (HasPrefix (beforeComma a0.String) "data:image/jpeg" = true ∨
          HasPrefix (beforeComma a0.String) "data:image/jpg" = true →
        tag = "jpeg" ∧ HasPrefix r "data:image/jpeg" = true ∧
          HasPrefix r "data:image/jpg" = false ∧ HasPrefix r "data:image/png" = false) ∧
      (HasPrefix (beforeComma a0.String) "data:image/png" = true →
        tag = "png" ∧ HasPrefix r "data:image/png" = true ∧
          HasPrefix r "data:image/jpeg" = false) := by
  cases hI : a1.Int with
  | none => simp [changeImageBrightness, hI] at h
  | some b =>
    by_cases hrange : b < -100 ∨ 100 < b
    · rw [cib_range H L a0 a1 rest b hI hrange] at h
      exact absurd h (report_value H _ _ r)
    · by_cases hc : commaCount a0.String = 1
      · rw [cib_process H L a0 a1 rest b hI (by omega) (by omega) hc] at h
        cases hd : L.base64Decode (afterComma a0.String) with
        | error err =>
          rw [processImage_b64_error H L b _ _ err hd] at h
          exact absurd h (report_value H _ _ r)
        | ok data =>
          by_cases hpng : HasPrefix (beforeComma a0.String) "data:image/png" = true
          · obtain ⟨nj1, nj2⟩ := hasPrefix_png_not_jpeg _ hpng
            rw [processImage_png H L b _ _ data hd hpng] at h
            cases hdec : L.pngDecode data with
            | error err =>
              simp only [hdec] at h
              exact absurd h (report_value H _ _ r)
            | ok img =>
              simp only [hdec] at h
              cases henc : L.pngEncode (pixelLoop img b) with
              | error err =>
                simp only [henc] at h
                exact absurd h (report_value H _ _ r)
              | ok buf =>
                simp only [henc] at h
                have hr2 : "data:image/" ++ "png" ++ ";base64," ++ L.base64Encode buf = r := by
                  simpa using h
                refine ⟨b, data, img, buf, "png", rfl, hc, rfl, hr2.symm,
                  Or.inl ⟨hpng, rfl, hdec, henc⟩, ?_, ?_⟩
                · intro hj
                  rcases hj with hj | hj
                  · rw [nj1] at hj; exact absurd hj (by decide)
                  · rw [nj2] at hj; exact absurd hj (by decide)
                · intro _
                  rw [← hr2]
                  refine ⟨rfl, ?_, ?_⟩ <;>
                    simp [HasPrefix, String.data_append, List.isPrefixOf]
          · have hpng2 : HasPrefix (beforeComma a0.String) "data:image/png" = false := by
              simpa using hpng
            by_cases hj : HasPrefix (beforeComma a0.String) "data:image/jpeg" = true ∨
                HasPrefix (beforeComma a0.String) "data:image/jpg" = true
            · rw [processImage_jpeg H L b _ _ data hd hpng2 hj] at h
              cases hdec : L.jpegDecode data with
              | error err =>
                simp only [hdec] at h
                exact absurd h (report_value H _ _ r)
              | ok img =>
                simp only [hdec] at h
                cases henc : L.jpegEncode (pixelLoop img b) 95 with
                | error err =>
                  simp only [henc] at h
                  exact absurd h (report_value H _ _ r)
                | ok buf =>
                  simp only [henc] at h
                  have hr2 : "data:image/" ++ "jpeg" ++ ";base64," ++ L.base64Encode buf = r := by
                    simpa using h
                  refine ⟨b, data, img, buf, "jpeg", rfl, hc, rfl, hr2.symm,
                    Or.inr ⟨hj, rfl, hdec, henc⟩, ?_, ?_⟩
                  · intro _
                    rw [← hr2]
                    refine ⟨rfl, ?_, ?_, ?_⟩ <;>
                      simp [HasPrefix, String.data_append, List.isPrefixOf]
                  · intro hp
                    exact absurd hp hpng
            · have hj1 : HasPrefix (beforeComma a0.String) "data:image/jpeg" = false := by
                by_contra hx; exact hj (Or.inl (by simpa using hx))
              have hj2 : HasPrefix (beforeComma a0.String) "data:image/jpg" = false := by
                by_contra hx; exact hj (Or.inr (by simpa using hx))
              rw [processImage_unsupported H L b _ _ data hd hpng2 hj1 hj2] at h
              exact absurd h (report_value H _ _ r)
      · rw [cib_malformed H L a0 a1 rest b hI (by omega) (by omega) hc] at h
        exact absurd h (report_value H _ _ r)

set_option maxRecDepth 8000 in
theorem output_format_witness :
    (changeImageBrightness stockHost sampleCodecs
        [jsString "data:image/jpg;base64,CsgAgA==", jsNumber 20] =
        ⟨some (some "data:image/jpeg;base64,PfszgA=="),
          [Event.base64Decode "CsgAgA==", Event.jpegDecode [10, 200, 0, 128],
            Event.jpegEncode 95, Event.base64Encode [61, 251, 51, 128],
            Event.println "Image brightness changed by:" 20]⟩) ∧
    ∃ (b : Int) (data : List Nat) (img : Image) (buf : List Nat) (tag : String),
      (jsNumber 20).Int = some b ∧ commaCount "data:image/jpg;base64,CsgAgA==" = 1 ∧
      sampleCodecs.base64Decode (afterComma "data:image/jpg;base64,CsgAgA==") = .ok data ∧
      "data:image/jpeg;base64,PfszgA==" =
        "data:image/" ++ tag ++ ";base64," ++ sampleCodecs.base64Encode buf ∧
      ((HasPrefix (beforeComma "data:image/jpg;base64,CsgAgA==") "data:image/png" = true ∧
          tag = "png" ∧ sampleCodecs.pngDecode data = .ok img ∧
          sampleCodecs.pngEncode (pixelLoop img b) = .ok buf) ∨
        ((HasPrefix (beforeComma "data:image/jpg;base64,CsgAgA==") "data:image/jpeg" = true ∨
            HasPrefix (beforeComma "data:image/jpg;base64,CsgAgA==") "data:image/jpg" = true) ∧
          tag = "jpeg" ∧ sampleCodecs.jpegDecode data = .ok img ∧
          sampleCodecs.jpegEncode (pixelLoop img b) 95 = .ok buf)) ∧
      (HasPrefix (beforeComma "data:image/jpg;base64,CsgAgA==") "data:image/jpeg" = true ∨
          HasPrefix (beforeComma "data:image/jpg;base64,CsgAgA==") "data:image/jpg" = true →
        tag = "jpeg" ∧ HasPrefix "data:image/jpeg;base64,PfszgA==" "data:image/jpeg" = true ∧
          HasPrefix "data:image/jpeg;base64,PfszgA==" "data:image/jpg" = false ∧
          HasPrefix "data:image/jpeg;base64,PfszgA==" "data:image/png" = false) ∧
      (HasPrefix (beforeComma "data:image/jpg;base64,CsgAgA==") "data:image/png" = true →
        tag = "png" ∧ HasPrefix "data:image/jpeg;base64,PfszgA==" "data:image/png" = true ∧
          HasPrefix "data:image/jpeg;base64,PfszgA==" "data:image/jpeg" = false) :=
  ⟨by decide,
    output_format stockHost sampleCodecs (jsString "data:image/jpg;base64,CsgAgA==")
      (jsNumber 20) [] "data:image/jpeg;base64,PfszgA==" (by decide)⟩

/-! ### `add` -/

theorem wrapInt64_add (a n : Int) : wrapInt64 (wrapInt64 a + n) = wrapInt64 (a + n) := by
  unfold wrapInt64
  omega

theorem wrapInt64_of_range (n : Int) (h1 : -2 ^ 63 ≤ n) (h2 : n < 2 ^ 63) : wrapInt64 n = n := by
  unfold wrapInt64
  omega

theorem saturateInt64_of_range (n : Int) (h1 : -2 ^ 63 ≤ n) (h2 : n < 2 ^ 63) :
    saturateInt64 n = n := by
  unfold saturateInt64
  omega

theorem addLoop_numbers (s : Int) (L : List Int)
    (hL : ∀ n ∈ L, -2 ^ 63 ≤ n ∧ n < 2 ^ 63) :
    addLoop (wrapInt64 s) (L.map jsNumber) = some (wrapInt64 (s + L.sum)) := by
  induction L generalizing s with
  | nil => simp [addLoop]
  | cons n t ih =>
    have hn := hL n (List.mem_cons_self n t)
    have ht : ∀ m ∈ t, -2 ^ 63 ≤ m ∧ m < 2 ^ 63 := fun m hm => hL m (List.mem_cons_of_mem n hm)
    simp only [List.map_cons, addLoop, jsNumber, List.sum_cons,
      saturateInt64_of_range n hn.1 hn.2]
    rw [wrapInt64_add, ih _ ht, add_assoc]

/-- C10, as stated, fails: the sum of `2 ^ 62` and `2 ^ 62` is `2 ^ 63`, which no Go `int`
holds; `add` returns `-2 ^ 63`. -/
theorem add_overflows :
    (add [jsNumber (2 ^ 62), jsNumber (2 ^ 62)]).value = some (-2 ^ 63) ∧
    (add [jsNumber (2 ^ 62), jsNumber (2 ^ 62)]).value ≠
      some ([2 ^ 62, 2 ^ 62] : List Int).sum := by
  decide

/-- C10 (amended): for every list `L` of integer-valued arguments, each in the range
`[-2 ^ 63, 2 ^ 63)` of Go `int`, `add` returns the sum of `L` wrapped into that
range; it is the sum of `L` whenever that sum lies in the range; and `add` of no
argument is `0`. -/
theorem add_sum (L : List Int) (hL : ∀ n ∈ L, -2 ^ 63 ≤ n ∧ n < 2 ^ 63) :
    (add (L.map jsNumber)).value = some (wrapInt64 L.sum) ∧
    (-2 ^ 63 ≤ L.sum ∧ L.sum < 2 ^ 63 → (add (L.map jsNumber)).value = some L.sum) ∧
    (add []).value = some 0 := by
  have h0 : wrapInt64 0 = 0 := by decide
  have h := addLoop_numbers 0 L hL
  rw [h0, zero_add] at h
  have hv : (add (L.map jsNumber)).value = some (wrapInt64 L.sum) := by
    simp [add, h]
  refine ⟨hv, fun hr => ?_, by simp [add, addLoop]⟩
  rw [hv, wrapInt64_of_range _ hr.1 hr.2]

theorem add_sum_witness :
    ((∀ n ∈ ([1, 2, 3] : List Int), -2 ^ 63 ≤ n ∧ n < 2 ^ 63) ∧
      (-2 ^ 63 : Int) ≤ ([1, 2, 3] : List Int).sum ∧ ([1, 2, 3] : List Int).sum < 2 ^ 63) ∧
    (add (([1, 2, 3] : List Int).map jsNumber)).value = some ([1, 2, 3] : List Int).sum :=
  ⟨⟨by decide, by decide⟩, (add_sum [1, 2, 3] (by decide)).2.1 (by decide)⟩

end Wasm
